import Mathlib

/-!
Shallow embedding of the playback scheduling core of the mock-tsunagaru
digital-signage application:

* `TimingController` — the AudioContext-backed clock
  (`Frontend/app/engine/TimingController.ts`);
* `PlaybackEngine` — the scheduler that drives region playback
  (`Frontend/app/engine/SignageEngine.tsx`, second section of the file);
* the module-level duration helpers of `SignageEngine.tsx`;
* the HLS stream-resilience state machine of `HlsRenderer`
  (the `ContentRenderer` source file).

Times and durations are rationals, in seconds, as the source works with
fractional seconds throughout.  The underlying hardware clock reading
(`AudioContext.currentTime`) is passed as an explicit argument `now` to every
operation that reads it; event emission is modelled by returning the list of
emitted events alongside the new state.
-/

/-- State of `TimingController` (TimingController.ts).  `hasContext` models
`audioContext ≠ null`; the hardware clock reading `AudioContext.currentTime`
is an explicit argument of every operation that reads it. -/
structure TimingController where
  hasContext : Bool
  startTime : ℚ
  pausedAt : ℚ
  isPaused : Bool
  totalPausedDuration : ℚ
deriving Repr, DecidableEq

/-- The controller state right after `init()` succeeded: a live `AudioContext`
and all counters at their field initializers. -/
def TimingController.initialized : TimingController :=
  { hasContext := true, startTime := 0, pausedAt := 0, isPaused := false,
    totalPausedDuration := 0 }

/-- The source's `TimingController.start()`: throws when not initialized; on resume from
pause it accumulates the pause duration; on a fresh start it rebases
`startTime` and clears the pause total. -/
def TimingController.start (tc : TimingController) (now : ℚ) :
    Except String TimingController :=
  if !tc.hasContext then Except.error "TimingController is not initialized"
  else if tc.isPaused then
    Except.ok { tc with
      totalPausedDuration := tc.totalPausedDuration + (now - tc.pausedAt),
      isPaused := false }
  else
    Except.ok { tc with startTime := now, totalPausedDuration := 0 }

/-- The source's `TimingController.pause()`: records the pause instant; a second pause, or a
pause without a context, is a no-op. -/
def TimingController.pause (tc : TimingController) (now : ℚ) : TimingController :=
  if !tc.hasContext || tc.isPaused then tc
  else { tc with pausedAt := now, isPaused := true }

/-- The source's `TimingController.reset()`: rebases to the current hardware time and clears
all pause bookkeeping. -/
def TimingController.reset (tc : TimingController) (now : ℚ) : TimingController :=
  if !tc.hasContext then tc
  else { tc with startTime := now, pausedAt := 0, isPaused := false,
                 totalPausedDuration := 0 }

/-- The source's `TimingController.getCurrentTime()`: elapsed engine seconds, excluding
paused time; frozen at the pause instant while paused; `0` without a context. -/
def TimingController.getCurrentTime (tc : TimingController) (now : ℚ) : ℚ :=
  if !tc.hasContext then 0
  else if tc.isPaused then tc.pausedAt - tc.startTime - tc.totalPausedDuration
  else now - tc.startTime - tc.totalPausedDuration

/-- The source's `TimingController.dispose()`: releases the context and zeroes every
counter. -/
def TimingController.dispose (tc : TimingController) : TimingController :=
  let _ := tc
  { hasContext := false, startTime := 0, pausedAt := 0, isPaused := false,
    totalPausedDuration := 0 }

/-! ## Data model (`Frontend/app/engine/types.ts` and `~/types`) -/

/-- The content-type union of the repository (`content_type` enum plus the
`hls` renderer branch). -/
inductive ContentType
  | video
  | image
  | text
  | youtube
  | url
  | weather
  | csv
  | hls
deriving Repr, DecidableEq

/-- A content item, restricted to the fields the scheduling core reads.
`metadataDuration` is `fileInfo?.metadata?.duration` flattened: `none` when
`fileInfo`, `metadata` or `duration` is missing. -/
structure ContentItem where
  id : String
  name : String
  type : ContentType
  metadataDuration : Option ℚ
deriving Repr, DecidableEq

/-- One entry of an assignment's `contentDurations` override list. -/
structure ContentDurationInfo where
  contentId : String
  duration : ℚ
deriving Repr, DecidableEq

/-- A region's content assignment inside a playlist. -/
structure ContentAssignment where
  regionId : String
  contentIds : List String
  contentDurations : List ContentDurationInfo
deriving Repr, DecidableEq

/-- A layout region, restricted to the field the scheduler reads. -/
structure Region where
  id : String
deriving Repr, DecidableEq

/-- A playlist, restricted to the fields the scheduler reads. -/
structure PlaylistItem where
  name : String
  contentAssignments : List ContentAssignment
deriving Repr, DecidableEq

/-- A layout, restricted to the field the scheduler reads. -/
structure LayoutItem where
  regions : List Region
deriving Repr, DecidableEq

/-- The source's `PlayingContent` (types.ts): the record a region's `currentContent`
holds. -/
structure PlayingContent where
  content : ContentItem
  startTime : ℚ
  duration : ℚ
  endTime : ℚ
deriving Repr, DecidableEq

/-- The source's `RegionPlaybackState` (types.ts). -/
structure RegionPlaybackState where
  regionId : String
  assignment : ContentAssignment
  contents : List ContentItem
  currentIndex : ℕ
  currentContent : Option PlayingContent
  nextContent : Option PlayingContent
  isPreloaded : Bool
deriving Repr, DecidableEq

/-- The source's `PlaybackStatus` (types.ts). -/
inductive PlaybackStatus
  | idle
  | loading
  | playing
  | paused
  | error
deriving Repr, DecidableEq

/-- The source's `EngineEvent` (types.ts).  The `error` variant is named `errorEvent` so it
reads unambiguously next to `PlaybackStatus.error`. -/
inductive EngineEvent
  | statusChange (status : PlaybackStatus)
  | contentChange (regionId : String) (content : ContentItem) (index : ℕ)
  | cycleComplete (cycleCount : ℕ)
  | errorEvent (message : String)
  | preloadEvent (regionId : String) (content : ContentItem) (startsIn : ℚ)
  | timeUpdate (currentTime : ℚ)
deriving Repr, DecidableEq

/-- The source's `EngineConfig` (types.ts). -/
structure EngineConfig where
  loop : Bool
  defaultDuration : ℚ
  preloadLeadTime : ℚ
deriving Repr, DecidableEq

/-- The source's `DEFAULT_ENGINE_CONFIG` (types.ts). -/
def DEFAULT_ENGINE_CONFIG : EngineConfig :=
  { loop := true, defaultDuration := 10, preloadLeadTime := 3 }

/-! ## Duration resolution -/

/-- JavaScript truthiness of the optional `fileInfo?.metadata?.duration` value:
the guard `if (content.fileInfo?.metadata?.duration)` passes exactly when the
value is present and non-zero (`0` is falsy; `NaN` has no rational
counterpart and is not modelled). -/
def truthyDuration : Option ℚ → Option ℚ
  | some d => if d = 0 then none else some d
  | none => none

/-- The module-level helper `getContentDuration` of `SignageEngine.tsx`
(lines 24-48), used by the progress-reporting code: explicit override, then
video metadata duration, then the duration detected at playback time, then the
`3600` placeholder for videos, and the default duration for every other
type.  `detectedDurations` is the `Map` keyed by content id; the absent map is
the empty list. -/
def getContentDuration (content : ContentItem) (assignment : ContentAssignment)
    (defaultDuration : ℚ) (detectedDurations : List (String × ℚ)) : ℚ :=
  match assignment.contentDurations.find? (fun d => d.contentId == content.id) with
  | some durationInfo => durationInfo.duration
  | none =>
    if content.type = ContentType.video then
      match truthyDuration content.metadataDuration with
      | some d => d
      | none =>
        match detectedDurations.lookup content.id with
        | some d => d
        | none => 3600
    else defaultDuration

/-- The source's `PlaybackEngine.getContentDuration` (SignageEngine.tsx lines 785-804), the
resolution the scheduler itself uses when it seeds or advances a region:
explicit override, then video metadata duration, then `60` for YouTube, then
the configured default.  It consults no detected-duration map and has no large
placeholder. -/
def PlaybackEngine.getContentDuration (cfg : EngineConfig) (content : ContentItem)
    (regionState : RegionPlaybackState) : ℚ :=
  match regionState.assignment.contentDurations.find? (fun d => d.contentId == content.id) with
  | some durationInfo => durationInfo.duration
  | none =>
    match content.type, truthyDuration content.metadataDuration with
    | ContentType.video, some d => d
    | ContentType.youtube, _ => 60
    | _, _ => cfg.defaultDuration

/-- The duration-resolution rule exactly as claim C2 words it, written from
the claim's words for comparison with the two source functions: explicit
override, then for video the known/detected duration with the conservative
`3600` placeholder when no duration was ever known, then the per-type default
with the longer default (`60`) for YouTube (extent unknowable in advance) and
the configured default for everything else. -/
def claimedDurationRule (content : ContentItem) (assignment : ContentAssignment)
    (defaultDuration : ℚ) (detectedDurations : List (String × ℚ)) : ℚ :=
  match assignment.contentDurations.find? (fun d => d.contentId == content.id) with
  | some durationInfo => durationInfo.duration
  | none =>
    if content.type = ContentType.video then
      match truthyDuration content.metadataDuration with
      | some d => d
      | none =>
        match detectedDurations.lookup content.id with
        | some d => d
        | none => 3600
    else if content.type = ContentType.youtube then 60
    else defaultDuration

/-- A video content item whose duration was never known: no metadata. -/
def videoNoMeta : ContentItem :=
  { id := "v1", name := "clip", type := ContentType.video, metadataDuration := none }

/-- An assignment with no explicit duration overrides. -/
def assignmentNoOverrides : ContentAssignment :=
  { regionId := "r1", contentIds := ["v1"], contentDurations := [] }

/-- A region state holding `videoNoMeta` under `assignmentNoOverrides`. -/
def regionStateVideoNoMeta : RegionPlaybackState :=
  { regionId := "r1", assignment := assignmentNoOverrides, contents := [videoNoMeta],
    currentIndex := 0, currentContent := none, nextContent := none, isPreloaded := false }

/-! ## Engine state and `load()` -/

/-- The source's `EngineState` (types.ts).  `regions` is the `Map` as an association list in
insertion order; `animationFrameId` is `some ()` while a per-frame callback is
outstanding. -/
structure EngineState where
  status : PlaybackStatus
  playlist : Option PlaylistItem
  layout : Option LayoutItem
  currentTime : ℚ
  cycleCount : ℕ
  regions : List RegionPlaybackState
  error : Option String
  animationFrameId : Option Unit
deriving Repr, DecidableEq

/-- The source's `createInitialState()` plus the class field initializer
`animationFrameId = null`. -/
def PlaybackEngine.createInitialState : EngineState :=
  { status := PlaybackStatus.idle, playlist := none, layout := none,
    currentTime := 0, cycleCount := 0, regions := [], error := none,
    animationFrameId := none }

/-- The source's `setStatus`: store and emit `statusChange` only when the value actually
changes. -/
def PlaybackEngine.setStatus (s : EngineState) (status : PlaybackStatus) :
    EngineState × List EngineEvent :=
  if s.status = status then (s, [])
  else ({ s with status := status }, [EngineEvent.statusChange status])

/-- The source's `Map.set` on the regions association list: overwrite in place when the key
exists, append otherwise (a JS `Map` keeps the original insertion position on
overwrite). -/
def mapSet (regions : List RegionPlaybackState) (rs : RegionPlaybackState) :
    List RegionPlaybackState :=
  if regions.any (fun r => r.regionId == rs.regionId) then
    regions.map (fun r => if r.regionId == rs.regionId then rs else r)
  else regions ++ [rs]

/-- The inner loop of `load()` over one assignment's `contentIds`: each id is
resolved through the content loader; `null` results are skipped (logged, not
fatal); a loader exception aborts the whole `load`. -/
def loadContents (loader : String → Except String (Option ContentItem)) :
    List String → Except String (List ContentItem)
  | [] => Except.ok []
  | cid :: rest =>
    match loader cid with
    | Except.error e => Except.error e
    | Except.ok none => loadContents loader rest
    | Except.ok (some c) => (loadContents loader rest).map (fun cs => c :: cs)

/-- The `regionState` record literal built inside the `load()` loop for a
region whose contents resolved successfully. -/
def builtRegionState (region : Region) (assignment : ContentAssignment)
    (contents : List ContentItem) : RegionPlaybackState :=
  { regionId := region.id, assignment := assignment, contents := contents,
    currentIndex := 0, currentContent := none, nextContent := none,
    isPreloaded := false }

/-- The `load()` loop over `layout.regions`, threading the partially built
regions map: a region without an assignment, with an empty id list, or with
zero resolved contents is skipped; a loader exception stops the loop and
leaves the regions built so far in place (the `catch` block does not clear
them). -/
def loadRegionsAux (loader : String → Except String (Option ContentItem))
    (playlist : PlaylistItem) :
    List Region → List RegionPlaybackState →
      List RegionPlaybackState × Option String
  | [], acc => (acc, none)
  | region :: rest, acc =>
    match playlist.contentAssignments.find? (fun a => a.regionId == region.id) with
    | none => loadRegionsAux loader playlist rest acc
    | some assignment =>
      if assignment.contentIds.isEmpty then loadRegionsAux loader playlist rest acc
      else
        match loadContents loader assignment.contentIds with
        | Except.error e => (acc, some e)
        | Except.ok contents =>
          if contents.isEmpty then loadRegionsAux loader playlist rest acc
          else
            loadRegionsAux loader playlist rest
              (mapSet acc (builtRegionState region assignment contents))

/-- The source's `PlaybackEngine.load(playlist, layout)`.  The third component is the
exception the call rethrows when the loader threw (`none` on success). -/
def PlaybackEngine.load (loader : String → Except String (Option ContentItem))
    (playlist : PlaylistItem) (layout : LayoutItem) (s : EngineState) :
    EngineState × List EngineEvent × Option String :=
  let r1 := PlaybackEngine.setStatus s PlaybackStatus.loading
  let s2 := { r1.1 with playlist := some playlist, layout := some layout,
                        regions := [], cycleCount := 0 }
  match loadRegionsAux loader playlist layout.regions [] with
  | (builtRegions, none) =>
    let r2 := PlaybackEngine.setStatus { s2 with regions := builtRegions }
      PlaybackStatus.idle
    (r2.1, r1.2 ++ r2.2, none)
  | (builtRegions, some e) =>
    let r2 := PlaybackEngine.setStatus { s2 with regions := builtRegions }
      PlaybackStatus.error
    ({ r2.1 with error := some e }, r1.2 ++ r2.2, some e)

/-- What `load()` computes for one region when the loader never throws:
`none` when the region is skipped (no assignment, empty id list, or zero
resolved items), otherwise its initial playback state. -/
def resolveRegion (f : String → Option ContentItem) (playlist : PlaylistItem)
    (region : Region) : Option RegionPlaybackState :=
  match playlist.contentAssignments.find? (fun a => a.regionId == region.id) with
  | none => none
  | some assignment =>
    if assignment.contentIds.isEmpty then none
    else
      let contents := assignment.contentIds.filterMap f
      if contents.isEmpty then none
      else some (builtRegionState region assignment contents)

/-- A loader-visible content item used by the concrete witnesses below. -/
def imageItemA : ContentItem :=
  { id := "a", name := "photo", type := ContentType.image,
    metadataDuration := none }

/-- A concrete never-throwing loader: `"a"` resolves, everything else is
`null`. -/
def loaderFnA : String → Option ContentItem :=
  fun cid => if cid = "a" then some imageItemA else none

/-- Three-region layout for the load witnesses. -/
def threeRegionLayout : LayoutItem :=
  { regions := [{ id := "r1" }, { id := "r2" }, { id := "r3" }] }

/-- Playlist for the load witnesses: `r1` has one resolvable and one missing
id, `r2` has an empty assignment, `r3` has none at all. -/
def skewedPlaylist : PlaylistItem :=
  { name := "p",
    contentAssignments :=
      [ { regionId := "r1", contentIds := ["a", "missing"], contentDurations := [] },
        { regionId := "r2", contentIds := [], contentDurations := [] } ] }

/-- A loader that throws on every id except `"a"`. -/
def throwingLoader : String → Except String (Option ContentItem) :=
  fun cid => if cid = "a" then Except.ok (some imageItemA)
             else Except.error "content fetch failed"

/-- Two-region layout for the C3 counterexample. -/
def twoRegionLayout : LayoutItem := { regions := [{ id := "r1" }, { id := "r2" }] }

/-- Playlist whose second region's content makes the loader throw. -/
def throwingPlaylist : PlaylistItem :=
  { name := "p",
    contentAssignments :=
      [ { regionId := "r1", contentIds := ["a"], contentDurations := [] },
        { regionId := "r2", contentIds := ["b"], contentDurations := [] } ] }

/-! ## Engine runtime operations -/

/-- The source's `initializeRegionContents()`: seed every region with its first content at
engine time `0` and emit one `contentChange` per seeded region; a region with
an empty content list is skipped. -/
def PlaybackEngine.initializeRegionContents (cfg : EngineConfig) (s : EngineState) :
    EngineState × List EngineEvent :=
  let step := fun (acc : List RegionPlaybackState × List EngineEvent)
      (regionState : RegionPlaybackState) =>
    match regionState.contents with
    | [] => (acc.1 ++ [regionState], acc.2)
    | content :: _ =>
      let duration := PlaybackEngine.getContentDuration cfg content regionState
      (acc.1 ++ [{ regionState with
          currentContent := some { content := content, startTime := 0,
                                   duration := duration,
                                   endTime := 0 + duration },
          currentIndex := 0 }],
       acc.2 ++ [EngineEvent.contentChange regionState.regionId content 0])
  let r := s.regions.foldl step ([], [])
  ({ s with regions := r.1 }, r.2)

/-- The source's `stop()`: cancel the frame callback, reset the clock, zero time and cycle
count, clear every region back to not-started, and set status `idle`. -/
def PlaybackEngine.stop (s : EngineState) (tc : TimingController) (now : ℚ) :
    EngineState × TimingController × List EngineEvent :=
  let s1 := { s with animationFrameId := none }
  let tc2 := tc.reset now
  let s2 := { s1 with
    currentTime := 0, cycleCount := 0,
    regions := s1.regions.map (fun regionState =>
      { regionState with
        currentIndex := 0, currentContent := none,
        nextContent := none, isPreloaded := false }) }
  let r := PlaybackEngine.setStatus s2 PlaybackStatus.idle
  (r.1, tc2, r.2)

/-- The source's `play()`: no-op while already playing; throws when no playlist is loaded;
on first play from `idle`/`error` it seeds the regions; then the clock starts
(which throws when `init()` never ran), status becomes `playing` and the loop
is armed.  The last component is the exception the call throws, if any. -/
def PlaybackEngine.play (cfg : EngineConfig) (s : EngineState)
    (tc : TimingController) (now : ℚ) :
    EngineState × TimingController × List EngineEvent × Option String :=
  if s.status = PlaybackStatus.playing then (s, tc, [], none)
  else if s.playlist.isNone || s.layout.isNone then
    (s, tc, [], some "プレイリストが読み込まれていません")
  else
    let r1 :=
      if s.status = PlaybackStatus.idle ∨ s.status = PlaybackStatus.error then
        PlaybackEngine.initializeRegionContents cfg s
      else (s, [])
    match tc.start now with
    | Except.error e => (r1.1, tc, r1.2, some e)
    | Except.ok tc2 =>
      let r2 := PlaybackEngine.setStatus r1.1 PlaybackStatus.playing
      ({ r2.1 with animationFrameId := some () }, tc2, r1.2 ++ r2.2, none)

/-- The source's `pause()`: only acts while `playing`; freezes the clock, sets status
`paused`, cancels the frame callback. -/
def PlaybackEngine.pause (s : EngineState) (tc : TimingController) (now : ℚ) :
    EngineState × TimingController × List EngineEvent :=
  if s.status ≠ PlaybackStatus.playing then (s, tc, [])
  else
    let tc2 := tc.pause now
    let r := PlaybackEngine.setStatus s PlaybackStatus.paused
    ({ r.1 with animationFrameId := none }, tc2, r.2)

/-- The source's `advanceToNextContent(regionState, currentTime)`: step to the next index;
past the end of the list the region goes dark (`currentContent = null`, index
unchanged); otherwise the new item starts at `currentTime` with its computed
duration, emitting `contentChange`.  `contents[nextIndex]?` is `none` exactly
when `nextIndex ≥ contents.length`, the source's guard. -/
def PlaybackEngine.advanceToNextContent (cfg : EngineConfig)
    (regionState : RegionPlaybackState) (currentTime : ℚ) :
    RegionPlaybackState × List EngineEvent :=
  let nextIndex := regionState.currentIndex + 1
  match regionState.contents[nextIndex]? with
  | none =>
    ({ regionState with currentContent := none }, [])
  | some content =>
    let duration := PlaybackEngine.getContentDuration cfg content regionState
    ({ regionState with
        currentIndex := nextIndex,
        currentContent := some { content := content, startTime := currentTime,
                                 duration := duration,
                                 endTime := currentTime + duration } },
     [EngineEvent.contentChange regionState.regionId content nextIndex])

/-- The source's `startNewCycle()`: increment the cycle counter, re-read the clock, reseed
every non-empty region to index `0` starting at that fresh reading, emit the
per-region `contentChange`s and then `cycleComplete` with the new counter. -/
def PlaybackEngine.startNewCycle (cfg : EngineConfig) (s : EngineState)
    (tc : TimingController) (now : ℚ) : EngineState × List EngineEvent :=
  let cycleCount := s.cycleCount + 1
  let currentTime := tc.getCurrentTime now
  let step := fun (acc : List RegionPlaybackState × List EngineEvent)
      (regionState : RegionPlaybackState) =>
    match regionState.contents with
    | [] => (acc.1 ++ [regionState], acc.2)
    | content :: _ =>
      let duration := PlaybackEngine.getContentDuration cfg content regionState
      (acc.1 ++ [{ regionState with
          currentIndex := 0,
          currentContent := some { content := content, startTime := currentTime,
                                   duration := duration,
                                   endTime := currentTime + duration } }],
       acc.2 ++ [EngineEvent.contentChange regionState.regionId content 0])
  let r := s.regions.foldl step ([], [])
  ({ s with cycleCount := cycleCount, regions := r.1 },
   r.2 ++ [EngineEvent.cycleComplete cycleCount])

/-- The body of the per-region loop inside `updateRegions`: a region with no
current content is skipped by `continue` (and so never clears
`allRegionsComplete`); otherwise the region advances when its end time has
passed, and then contributes completeness exactly when it is on its last item
and not mid-playback. -/
def PlaybackEngine.updateRegionStep (cfg : EngineConfig) (currentTime : ℚ)
    (regionState : RegionPlaybackState) :
    RegionPlaybackState × List EngineEvent × Bool :=
  match regionState.currentContent with
  | none => (regionState, [], true)
  | some pc =>
    let r :=
      if pc.endTime ≤ currentTime then
        PlaybackEngine.advanceToNextContent cfg regionState currentTime
      else (regionState, [])
    let isLastContent : Bool := decide (r.1.contents.length - 1 ≤ r.1.currentIndex)
    let isContentPlaying : Bool :=
      match r.1.currentContent with
      | some pc2 => decide (currentTime < pc2.endTime)
      | none => false
    (r.1, r.2, isLastContent && !isContentPlaying)

/-- The source's `updateRegions(currentTime)`: run the per-region step over the map in
insertion order, and at the barrier — every region complete — either start a
new cycle (`loop` enabled, with a fresh clock reading at hardware time `now2`)
or invoke `stop()`. -/
def PlaybackEngine.updateRegions (cfg : EngineConfig) (s : EngineState)
    (tc : TimingController) (currentTime : ℚ) (now2 : ℚ) :
    EngineState × TimingController × List EngineEvent :=
  let step := fun (acc : List RegionPlaybackState × List EngineEvent × Bool)
      (regionState : RegionPlaybackState) =>
    let r := PlaybackEngine.updateRegionStep cfg currentTime regionState
    (acc.1 ++ [r.1], acc.2.1 ++ r.2.1, acc.2.2 && r.2.2)
  let r := s.regions.foldl step ([], [], true)
  let s1 := { s with regions := r.1 }
  if r.2.2 then
    if cfg.loop then
      let r2 := PlaybackEngine.startNewCycle cfg s1 tc now2
      (r2.1, tc, r.2.1 ++ r2.2)
    else
      let r2 := PlaybackEngine.stop s1 tc now2
      (r2.1, r2.2.1, r.2.1 ++ r2.2.2)
  else (s1, tc, r.2.1)

/-- One firing opportunity of the `requestAnimationFrame` loop body.  With no
outstanding callback nothing runs.  A fired callback is consumed; it returns
immediately unless the status is `playing`, and otherwise reads the clock at
hardware time `now`, stores it, updates every region (`now2` being the
hardware time of the fresh clock read inside `startNewCycle`), and reschedules
itself. -/
def PlaybackEngine.tick (cfg : EngineConfig) (s : EngineState)
    (tc : TimingController) (now now2 : ℚ) :
    EngineState × TimingController × List EngineEvent :=
  match s.animationFrameId with
  | none => (s, tc, [])
  | some _ =>
    let s0 := { s with animationFrameId := none }
    if s0.status ≠ PlaybackStatus.playing then (s0, tc, [])
    else
      let currentTime := tc.getCurrentTime now
      let s1 := { s0 with currentTime := currentTime }
      let r := PlaybackEngine.updateRegions cfg s1 tc currentTime now2
      ({ r.1 with animationFrameId := some () }, r.2.1, r.2.2)

/-- The source's `dispose()`: cancel the frame callback, release the clock, drop all
listeners and reset the state to its initial value. -/
def PlaybackEngine.dispose (s : EngineState) (tc : TimingController) :
    EngineState × TimingController :=
  let _ := s
  (PlaybackEngine.createInitialState, tc.dispose)

/-- Modelled from the spec: `notifyContentComplete(regionId)` is declared in
`SignageEngineControl` and called by `handleContentComplete`, but the
`PlaybackEngine` method itself is not present under `src/`.  Following §4.2,
§5 and §7 of the specification, the hook performs an event-path advance of
the region's current item, sharing `advanceToNextContent` with the timer path;
to make the stale-signal rule expressible the index of the item that
signalled completion is passed explicitly (`signalIndex`).  A call for an
unknown region, for a region with no current content, or whose `currentIndex`
has already moved past the signalling item, is silently ignored. -/
def PlaybackEngine.notifyContentComplete (cfg : EngineConfig) (s : EngineState)
    (regionId : String) (signalIndex : ℕ) (currentTime : ℚ) :
    EngineState × List EngineEvent :=
  match s.regions.find? (fun regionState => regionState.regionId == regionId) with
  | none => (s, [])
  | some regionState =>
    match regionState.currentContent with
    | none => (s, [])
    | some _ =>
      if signalIndex ≠ regionState.currentIndex then (s, [])
      else
        let r := PlaybackEngine.advanceToNextContent cfg regionState currentTime
        ({ s with regions := mapSet s.regions r.1 }, r.2)

/-- Region state for the C1 witness: the region has advanced to index 1, so a
signal about index 0 is stale. -/
def staleRegionState : RegionPlaybackState :=
  { regionId := "r1",
    assignment := { regionId := "r1", contentIds := ["a", "a"],
                    contentDurations := [] },
    contents := [imageItemA, imageItemA],
    currentIndex := 1,
    currentContent := some { content := imageItemA, startTime := 10,
                             duration := 10, endTime := 20 },
    nextContent := none, isPreloaded := false }

/-- Engine state for the C1 witness. -/
def staleEngineState : EngineState :=
  { PlaybackEngine.createInitialState with
    status := PlaybackStatus.playing, regions := [staleRegionState] }

/-! ## C5: the cycle barrier -/

/-- The advance phase of one `updateRegions` pass: every region after its
(possible) advance, in order. -/
def PlaybackEngine.advancePhase (cfg : EngineConfig) (t : ℚ)
    (regions : List RegionPlaybackState) : List RegionPlaybackState :=
  regions.map (fun rs => (PlaybackEngine.updateRegionStep cfg t rs).1)

/-- A region has exhausted its content list at time `t`: `currentIndex` at or
past the last item, and not mid-playback (no current content, or its end time
has passed). -/
def regionExhausted (t : ℚ) (rs : RegionPlaybackState) : Prop :=
  rs.contents.length - 1 ≤ rs.currentIndex ∧
  ∀ pc ∈ rs.currentContent, pc.endTime ≤ t

instance (t : ℚ) (rs : RegionPlaybackState) : Decidable (regionExhausted t rs) :=
  inferInstanceAs (Decidable (_ ∧ _))

/-- What `startNewCycle` makes of one region: a region with contents is
reseeded to index `0` starting at `t`; an empty one is left alone. -/
def reseedAt (cfg : EngineConfig) (t : ℚ) (rs : RegionPlaybackState) :
    RegionPlaybackState :=
  match rs.contents with
  | [] => rs
  | content :: _ =>
    { rs with
      currentIndex := 0,
      currentContent := some { content := content, startTime := t,
                               duration := PlaybackEngine.getContentDuration cfg content rs,
                               endTime := t + PlaybackEngine.getContentDuration cfg content rs } }

/-- The `contentChange` a reseeded region emits (none for an empty region). -/
def reseedEvents (rs : RegionPlaybackState) : List EngineEvent :=
  match rs.contents with
  | [] => []
  | content :: _ => [EngineEvent.contentChange rs.regionId content 0]

/-- Region state for the C5 witness: one image, playing, end time 3. -/
def barrierRegionState : RegionPlaybackState :=
  { regionId := "r1",
    assignment := { regionId := "r1", contentIds := ["a"], contentDurations := [] },
    contents := [imageItemA],
    currentIndex := 0,
    currentContent := some { content := imageItemA, startTime := 0, duration := 3,
                             endTime := 3 },
    nextContent := none, isPreloaded := false }

/-- Engine state for the C5 witness. -/
def barrierEngineState : EngineState :=
  { PlaybackEngine.createInitialState with
    status := PlaybackStatus.playing, regions := [barrierRegionState] }

/-! ## C8: the per-region invariant -/

/-- A region's current record is consistent: its end time is its start time
plus its computed duration.  That a region has *at most one* current item is
enforced structurally: `currentContent` is a single `Option` field. -/
def regionWellFormed (rs : RegionPlaybackState) : Prop :=
  ∀ pc ∈ rs.currentContent, pc.endTime = pc.startTime + pc.duration

instance (rs : RegionPlaybackState) : Decidable (regionWellFormed rs) :=
  inferInstanceAs (Decidable (∀ pc ∈ rs.currentContent, _))

/-- Every region of the engine state is well-formed. -/
def engineWellFormed (s : EngineState) : Prop :=
  ∀ rs ∈ s.regions, regionWellFormed rs

instance (s : EngineState) : Decidable (engineWellFormed s) :=
  inferInstanceAs (Decidable (∀ rs ∈ s.regions, _))

/-- The engine states a playback session can reach: the freshly constructed
engine, closed under every public operation and the internal tick. -/
inductive EngineReachable (cfg : EngineConfig) :
    EngineState → TimingController → Prop
  | initial (tc : TimingController) :
      EngineReachable cfg PlaybackEngine.createInitialState tc
  | loadStep {s : EngineState} {tc : TimingController}
      (loader : String → Except String (Option ContentItem))
      (playlist : PlaylistItem) (layout : LayoutItem) :
      EngineReachable cfg s tc →
      EngineReachable cfg (PlaybackEngine.load loader playlist layout s).1 tc
  | playStep {s : EngineState} {tc : TimingController} (now : ℚ) :
      EngineReachable cfg s tc →
      EngineReachable cfg (PlaybackEngine.play cfg s tc now).1
        (PlaybackEngine.play cfg s tc now).2.1
  | pauseStep {s : EngineState} {tc : TimingController} (now : ℚ) :
      EngineReachable cfg s tc →
      EngineReachable cfg (PlaybackEngine.pause s tc now).1
        (PlaybackEngine.pause s tc now).2.1
  | stopStep {s : EngineState} {tc : TimingController} (now : ℚ) :
      EngineReachable cfg s tc →
      EngineReachable cfg (PlaybackEngine.stop s tc now).1
        (PlaybackEngine.stop s tc now).2.1
  | tickStep {s : EngineState} {tc : TimingController} (now now2 : ℚ) :
      EngineReachable cfg s tc →
      EngineReachable cfg (PlaybackEngine.tick cfg s tc now now2).1
        (PlaybackEngine.tick cfg s tc now now2).2.1
  | notifyStep {s : EngineState} {tc : TimingController}
      (regionId : String) (signalIndex : ℕ) (currentTime : ℚ) :
      EngineReachable cfg s tc →
      EngineReachable cfg
        (PlaybackEngine.notifyContentComplete cfg s regionId signalIndex
          currentTime).1 tc
  | disposeStep {s : EngineState} {tc : TimingController} :
      EngineReachable cfg s tc →
      EngineReachable cfg (PlaybackEngine.dispose s tc).1
        (PlaybackEngine.dispose s tc).2

/-! ## C7: the HLS stream-resilience state machine (`HlsRenderer`) -/

/-- The source's `maxRetries` in `HlsRenderer`. -/
def maxRetries : ℕ := 3

/-- The source's `retryInterval` in `HlsRenderer`: the fixed polling period, milliseconds. -/
def retryInterval : ℕ := 5000

/-- The component state of `HlsRenderer` that drives resilience:
`retryCount` is the `retryCountRef`, `hlsAlive` models `hlsRef.current ≠
null` (a live HLS.js instance whose handlers can fire). -/
structure HlsState where
  retryCount : ℕ
  isWaitingForStream : Bool
  isLoading : Bool
  error : Option String
  connectionAttempt : ℕ
  hlsAlive : Bool
deriving Repr, DecidableEq

/-- The state right after the initial `initHls` attached a fresh instance. -/
def HlsState.initial : HlsState :=
  { retryCount := 0, isWaitingForStream := false, isLoading := true,
    error := none, connectionAttempt := 0, hlsAlive := true }

/-- The occurrences the handlers react to: HLS.js events (delivered only
while an instance is alive), the video element's `ended`, and the 5-second
polling tick (armed only while waiting). -/
inductive HlsEvent
  | networkError
  | mediaError
  | otherFatalError
  | manifestParsed
  | bufferEos
  | pollTick
  | videoEnded
deriving Repr, DecidableEq

/-- The externally visible actions a step performs.  `notifyComplete` stands
for reporting item completion to the engine (`onComplete`): `HlsRenderer`
takes no such callback and never performs it. -/
inductive HlsAction
  | fastRetry
  | destroyInstance
  | recoverMedia
  | playVideo
  | reconnect
  | notifyComplete
deriving Repr, DecidableEq

/-- One handler firing of `HlsRenderer`, from the `hls.on(...)` handlers, the
`onEnded` handler, and the polling/reconnection effects: a fatal network
error fast-retries (`hls.startLoad()`) while `retryCount < maxRetries` and
otherwise destroys the instance and enters waiting; a media error calls
`recoverMediaError`; any other fatal error enters waiting; a parsed manifest
returns to live, clears the error and zeroes the retry counter; buffer EOS
and `ended` enter waiting; the poll tick (armed only while waiting) zeroes
the retry counter, bumps `connectionAttempt` and reconnects with a fresh
instance. -/
def hlsStep (s : HlsState) : HlsEvent → HlsState × List HlsAction
  | HlsEvent.networkError =>
    if !s.hlsAlive then (s, [])
    else if s.retryCount < maxRetries then
      ({ s with retryCount := s.retryCount + 1 }, [HlsAction.fastRetry])
    else
      ({ s with isLoading := false, hlsAlive := false, isWaitingForStream := true },
       [HlsAction.destroyInstance])
  | HlsEvent.mediaError =>
    if !s.hlsAlive then (s, []) else (s, [HlsAction.recoverMedia])
  | HlsEvent.otherFatalError =>
    if !s.hlsAlive then (s, [])
    else
      ({ s with isLoading := false, hlsAlive := false, isWaitingForStream := true },
       [HlsAction.destroyInstance])
  | HlsEvent.manifestParsed =>
    if !s.hlsAlive then (s, [])
    else
      ({ s with isLoading := false, isWaitingForStream := false, error := none,
                retryCount := 0 },
       [HlsAction.playVideo])
  | HlsEvent.bufferEos =>
    if !s.hlsAlive then (s, [])
    else
      ({ s with hlsAlive := false, isWaitingForStream := true },
       [HlsAction.destroyInstance])
  | HlsEvent.pollTick =>
    if !s.isWaitingForStream then (s, [])
    else
      ({ s with retryCount := 0, connectionAttempt := s.connectionAttempt + 1,
                isLoading := true, hlsAlive := true },
       [HlsAction.reconnect])
  | HlsEvent.videoEnded =>
    if s.hlsAlive then
      ({ s with hlsAlive := false, isWaitingForStream := true },
       [HlsAction.destroyInstance])
    else ({ s with isWaitingForStream := true }, [])

/-- Run a list of events, accumulating the actions. -/
def hlsRun (s : HlsState) : List HlsEvent → HlsState × List HlsAction
  | [] => (s, [])
  | ev :: rest =>
    let r := hlsStep s ev
    let r2 := hlsRun r.1 rest
    (r2.1, r.2 ++ r2.2)

/-- What `HlsRenderer` renders, from its JSX branches in order. -/
inductive HlsRenderOutput
  | fallbackImage (path : String)
  | waitingPlaceholder
  | errorFallback (path : String)
  | errorText (message : String)
  | videoSurface (loadingOverlay : Bool)
deriving Repr, DecidableEq

/-- The render function of `HlsRenderer`: while waiting it shows the
configured fallback image when present, else the neutral placeholder; then
the error branches; else the live video surface. -/
def hlsRender (s : HlsState) (fallbackImagePath : Option String) :
    HlsRenderOutput :=
  if s.isWaitingForStream then
    match fallbackImagePath with
    | some p => HlsRenderOutput.fallbackImage p
    | none => HlsRenderOutput.waitingPlaceholder
  else
    match s.error, fallbackImagePath with
    | some _, some p => HlsRenderOutput.errorFallback p
    | some msg, none => HlsRenderOutput.errorText msg
    | none, _ => HlsRenderOutput.videoSurface s.isLoading

/-- State for the C7 witness, reached by four network errors and a poll tick
followed by three more fast retries: reconnected instance alive, still
waiting, fast-retry budget used up. -/
def hlsWaitingRetryState : HlsState :=
  { retryCount := 3, isWaitingForStream := true, isLoading := true,
    error := none, connectionAttempt := 1, hlsAlive := true }

/-! ## C10: `statusChange` events never repeat a value -/

/-- The operations a session can perform on the engine, in any order.  Time
arguments are the hardware-clock readings at the call. -/
inductive EngineOp
  | initClock
  | loadOp (loader : String → Except String (Option ContentItem))
      (playlist : PlaylistItem) (layout : LayoutItem)
  | playOp (now : ℚ)
  | pauseOp (now : ℚ)
  | stopOp (now : ℚ)
  | tickOp (now now2 : ℚ)
  | notifyOp (regionId : String) (signalIndex : ℕ) (currentTime : ℚ)
  | disposeOp

/-- Apply one operation, returning the new engine state, clock state and the
events it emitted. -/
def applyOp (cfg : EngineConfig) (op : EngineOp) (s : EngineState)
    (tc : TimingController) :
    EngineState × TimingController × List EngineEvent :=
  match op with
  | EngineOp.initClock => (s, TimingController.initialized, [])
  | EngineOp.loadOp loader playlist layout =>
    ((PlaybackEngine.load loader playlist layout s).1, tc,
     (PlaybackEngine.load loader playlist layout s).2.1)
  | EngineOp.playOp now =>
    ((PlaybackEngine.play cfg s tc now).1,
     (PlaybackEngine.play cfg s tc now).2.1,
     (PlaybackEngine.play cfg s tc now).2.2.1)
  | EngineOp.pauseOp now => PlaybackEngine.pause s tc now
  | EngineOp.stopOp now => PlaybackEngine.stop s tc now
  | EngineOp.tickOp now now2 => PlaybackEngine.tick cfg s tc now now2
  | EngineOp.notifyOp regionId signalIndex currentTime =>
    ((PlaybackEngine.notifyContentComplete cfg s regionId signalIndex
        currentTime).1, tc,
     (PlaybackEngine.notifyContentComplete cfg s regionId signalIndex
        currentTime).2)
  | EngineOp.disposeOp =>
    ((PlaybackEngine.dispose s tc).1, (PlaybackEngine.dispose s tc).2, [])

/-- Run a list of operations from a state, concatenating all emitted
events. -/
def runOps (cfg : EngineConfig) :
    List EngineOp → EngineState → TimingController →
      EngineState × TimingController × List EngineEvent
  | [], s, tc => (s, tc, [])
  | op :: rest, s, tc =>
    let r := applyOp cfg op s tc
    let r2 := runOps cfg rest r.1 r.2.1
    (r2.1, r2.2.1, r.2.2 ++ r2.2.2)

/-- The payloads of the `statusChange` events of a stream, in order. -/
def statusEvents : List EngineEvent → List PlaybackStatus
  | [] => []
  | EngineEvent.statusChange st :: rest => st :: statusEvents rest
  | _ :: rest => statusEvents rest

/-- The last `statusChange` payload, `prev` when the new list has none. -/
def lastStatus (prev : Option PlaybackStatus) (l : List PlaybackStatus) :
    Option PlaybackStatus :=
  (prev.toList ++ l).getLast?

/-- The statuses in `prev.toList ++ l` are pairwise adjacent-distinct. -/
def chainFrom (prev : Option PlaybackStatus) (l : List PlaybackStatus) : Prop :=
  List.Chain' (fun a b => a ≠ b) (prev.toList ++ l)

/-- The induction invariant tying the engine status to the last emitted
`statusChange`: the status is never observed as `loading` between operations,
and either it equals the last emitted value, or the engine was silently reset
(`dispose`, or nothing emitted yet) to `idle` with no playlist. -/
def statusInv (prev : Option PlaybackStatus) (s : EngineState) : Prop :=
  s.status ≠ PlaybackStatus.loading ∧
  (prev = none → s.status = PlaybackStatus.idle ∧ s.playlist = none) ∧
  (∀ v, prev = some v →
    v = s.status ∨
    (s.status = PlaybackStatus.idle ∧ s.playlist = none ∧
     v ≠ PlaybackStatus.loading))

/-- The clock state of a freshly constructed `TimingController` (no
`AudioContext` until `init()`). -/
def TimingController.constructed : TimingController :=
  { hasContext := false, startTime := 0, pausedAt := 0, isPaused := false,
    totalPausedDuration := 0 }

/-- C4: for the clock, pausing at hardware time `tPause` freezes
`getCurrentTime` at its pre-pause value (any later reading `tMid` returns the
value observed at the pause instant), and resuming via `start()` at hardware
time `tResume` makes `getCurrentTime` immediately report that same value:
paused time is never lost and never double-counted.  The state `tc` is an
arbitrary running clock state, so the statement applies after any number of
earlier pause/resume repetitions. -/
theorem timing_pause_resume_no_jump (tc : TimingController)
    (hc : tc.hasContext = true) (hp : tc.isPaused = false)
    (tPause tMid tResume : ℚ) :
    (tc.pause tPause).getCurrentTime tMid = tc.getCurrentTime tPause ∧
    ((tc.pause tPause).start tResume).map
        (fun tc2 => tc2.getCurrentTime tResume)
      = Except.ok (tc.getCurrentTime tPause) := by
  unfold TimingController.pause TimingController.start TimingController.getCurrentTime
  simp [hc, hp, Except.map]
  ring

/-- Witness for C4 at a concrete clock state: pause at 5, read at 7, resume
at 9; all readings equal the pre-pause value. -/
theorem timing_pause_resume_no_jump_witness :
    (TimingController.initialized.pause 5).getCurrentTime 7
        = TimingController.initialized.getCurrentTime 5 ∧
    ((TimingController.initialized.pause 5).start 9).map
        (fun tc2 => tc2.getCurrentTime 9)
      = Except.ok (TimingController.initialized.getCurrentTime 5) :=
  timing_pause_resume_no_jump TimingController.initialized rfl rfl 5 7 9

/-- C2 counterexample: for a video with no override and no known duration, the
scheduler's own resolution (`PlaybackEngine.getContentDuration`) returns the
configured default `10`, not the conservative large placeholder `3600` the
claim requires, so its timer does fire prematurely. -/
theorem duration_resolution_counterexample :
    PlaybackEngine.getContentDuration DEFAULT_ENGINE_CONFIG videoNoMeta
        regionStateVideoNoMeta = 10 ∧
    claimedDurationRule videoNoMeta assignmentNoOverrides
        DEFAULT_ENGINE_CONFIG.defaultDuration [] = 3600 ∧
    PlaybackEngine.getContentDuration DEFAULT_ENGINE_CONFIG videoNoMeta
        regionStateVideoNoMeta
      ≠ claimedDurationRule videoNoMeta assignmentNoOverrides
          DEFAULT_ENGINE_CONFIG.defaultDuration [] := by
  refine ⟨rfl, rfl, ?_⟩
  decide

/-- C2 amended: the repository implements the claimed priority split across
two functions.  (1) An explicit override wins in both.  (2) For video, truthy
metadata wins next in both.  (3) The adapter-detected duration and, failing
that, the `3600` placeholder are used only by the progress-reporting helper
`getContentDuration`; the scheduler's `PlaybackEngine.getContentDuration`
gives such a video the configured default.  (4) The longer YouTube default
`60` exists only in the scheduler's resolution; the helper gives YouTube the
uniform default.  (5) Every other type without an override resolves to the
default in both. -/
theorem duration_resolution_amended (cfg : EngineConfig) (content : ContentItem)
    (rs : RegionPlaybackState) (detected : List (String × ℚ)) :
    (∀ di, rs.assignment.contentDurations.find? (fun d => d.contentId == content.id)
          = some di →
        PlaybackEngine.getContentDuration cfg content rs = di.duration ∧
        getContentDuration content rs.assignment cfg.defaultDuration detected
          = di.duration) ∧
    (rs.assignment.contentDurations.find? (fun d => d.contentId == content.id) = none →
      (∀ d, content.type = ContentType.video → truthyDuration content.metadataDuration = some d →
        PlaybackEngine.getContentDuration cfg content rs = d ∧
        getContentDuration content rs.assignment cfg.defaultDuration detected = d) ∧
      (content.type = ContentType.video → truthyDuration content.metadataDuration = none →
        (∀ d, detected.lookup content.id = some d →
          getContentDuration content rs.assignment cfg.defaultDuration detected = d) ∧
        (detected.lookup content.id = none →
          getContentDuration content rs.assignment cfg.defaultDuration detected = 3600) ∧
        PlaybackEngine.getContentDuration cfg content rs = cfg.defaultDuration) ∧
      (content.type = ContentType.youtube →
        PlaybackEngine.getContentDuration cfg content rs = 60 ∧
        getContentDuration content rs.assignment cfg.defaultDuration detected
          = cfg.defaultDuration) ∧
      (content.type ≠ ContentType.video → content.type ≠ ContentType.youtube →
        PlaybackEngine.getContentDuration cfg content rs = cfg.defaultDuration ∧
        getContentDuration content rs.assignment cfg.defaultDuration detected
          = cfg.defaultDuration)) := by
  unfold PlaybackEngine.getContentDuration getContentDuration
  refine ⟨fun di hdi => by simp [hdi], fun hnone => ⟨?_, ?_, ?_, ?_⟩⟩
  · intro d hv hd
    simp [hnone, hv, hd]
  · intro hv hd
    refine ⟨fun d hdet => by simp [hnone, hv, hd, hdet], fun hdet => by simp [hnone, hv, hd, hdet], ?_⟩
    simp [hnone, hv, hd]
  · intro hy
    constructor
    · simp only [hnone]
      rw [hy]
    · have : content.type ≠ ContentType.video := by rw [hy]; intro h; cases h
      simp [hnone, this]
  · intro hv hy
    constructor
    · simp only [hnone]
      cases h : content.type <;> simp_all
    · simp [hnone, hv]

/-- Witness for C2's amended theorem: a video with no override, falsy
metadata and no detected entry gets `3600` from the helper and the configured
default `10` from the scheduler. -/
theorem duration_resolution_amended_witness :
    getContentDuration videoNoMeta assignmentNoOverrides
        DEFAULT_ENGINE_CONFIG.defaultDuration [] = 3600 ∧
    PlaybackEngine.getContentDuration DEFAULT_ENGINE_CONFIG videoNoMeta
        regionStateVideoNoMeta = DEFAULT_ENGINE_CONFIG.defaultDuration := by
  have h := (duration_resolution_amended DEFAULT_ENGINE_CONFIG videoNoMeta
    regionStateVideoNoMeta []).2 rfl
  exact ⟨(h.2.1 rfl rfl).2.1 rfl, (h.2.1 rfl rfl).2.2⟩

theorem setStatus_events (s : EngineState) (st : PlaybackStatus) :
    ∀ ev ∈ (PlaybackEngine.setStatus s st).2, ev = EngineEvent.statusChange st := by
  unfold PlaybackEngine.setStatus
  by_cases h : s.status = st <;> simp [h]

theorem mapSet_of_not_mem (acc : List RegionPlaybackState)
    (rs : RegionPlaybackState) (h : ∀ r ∈ acc, r.regionId ≠ rs.regionId) :
    mapSet acc rs = acc ++ [rs] := by
  unfold mapSet
  have : acc.any (fun r => r.regionId == rs.regionId) = false := by
    simp only [List.any_eq_false, beq_iff_eq]
    exact h
  simp [this]

theorem loadContents_total (f : String → Option ContentItem) :
    ∀ ids : List String,
      loadContents (fun cid => Except.ok (f cid)) ids
        = Except.ok (ids.filterMap f) := by
  intro ids
  induction ids with
  | nil => rfl
  | cons cid rest ih =>
    unfold loadContents
    cases h : f cid <;> simp [h, ih, Except.map]

theorem loadRegionsAux_total (f : String → Option ContentItem)
    (playlist : PlaylistItem) :
    ∀ (regs : List Region) (acc : List RegionPlaybackState),
      (∀ rs ∈ acc, ∀ r ∈ regs, rs.regionId ≠ r.id) →
      (regs.map Region.id).Nodup →
      loadRegionsAux (fun cid => Except.ok (f cid)) playlist regs acc
        = (acc ++ regs.filterMap (resolveRegion f playlist), none) := by
  intro regs
  induction regs with
  | nil => intro acc _ _; simp [loadRegionsAux]
  | cons region rest ih =>
    intro acc hacc hnodup
    have hnodupRest : (rest.map Region.id).Nodup := by
      simpa using hnodup.of_cons
    have hheadNotRest : ∀ r ∈ rest, region.id ≠ r.id := by
      intro r hr heq
      have : region.id ∈ rest.map Region.id := by
        exact heq ▸ List.mem_map_of_mem Region.id hr
      exact (List.nodup_cons.mp (by simpa using hnodup)).1 this
    have haccRest : ∀ rs ∈ acc, ∀ r ∈ rest, rs.regionId ≠ r.id :=
      fun rs hrs r hr => hacc rs hrs r (List.mem_cons_of_mem _ hr)
    rw [List.filterMap_cons]
    cases hfind : playlist.contentAssignments.find? (fun a => a.regionId == region.id) with
    | none =>
      have hres : resolveRegion f playlist region = none := by
        simp [resolveRegion, hfind]
      rw [hres]
      simpa [loadRegionsAux, hfind] using ih acc haccRest hnodupRest
    | some assignment =>
      cases hempty : assignment.contentIds.isEmpty with
      | true =>
        have hres : resolveRegion f playlist region = none := by
          simp [resolveRegion, hfind, hempty]
        rw [hres]
        simpa [loadRegionsAux, hfind, hempty] using ih acc haccRest hnodupRest
      | false =>
        cases hcs : (assignment.contentIds.filterMap f).isEmpty with
        | true =>
          have hres : resolveRegion f playlist region = none := by
            simp [resolveRegion, hfind, hempty, hcs]
          rw [hres]
          simpa [loadRegionsAux, hfind, loadContents_total, hempty, hcs]
            using ih acc haccRest hnodupRest
        | false =>
          have hres : resolveRegion f playlist region
              = some (builtRegionState region assignment
                  (assignment.contentIds.filterMap f)) := by
            simp [resolveRegion, hfind, hempty, hcs]
          have hrsid : (builtRegionState region assignment
              (assignment.contentIds.filterMap f)).regionId = region.id := rfl
          have hset := mapSet_of_not_mem acc
            (builtRegionState region assignment (assignment.contentIds.filterMap f))
            (fun r hr => hrsid ▸ hacc r hr region (List.mem_cons_self region rest))
          have hacc2 : ∀ rs ∈ acc ++ [builtRegionState region assignment
              (assignment.contentIds.filterMap f)], ∀ r ∈ rest, rs.regionId ≠ r.id := by
            intro rs hrs r hr
            rcases List.mem_append.mp hrs with h1 | h2
            · exact haccRest rs h1 r hr
            · simp only [List.mem_singleton] at h2
              subst h2
              exact hheadNotRest r hr
          rw [hres]
          simp only [loadRegionsAux, hfind, loadContents_total, hempty, hcs]
          rw [hset, ih _ hacc2 hnodupRest]
          simp

/-- C6: when the content loader never throws (it returns `f cid`, possibly
`null`), `load(playlist, layout)` rethrows nothing, finishes with status
`idle`, and schedules exactly the regions `resolveRegion` keeps: content ids
resolving to `null` are dropped (`filterMap f`), and a region whose
assignment is absent, empty, or resolves to zero items is omitted from the
regions map entirely.  Region ids are pairwise distinct, as a layout editor
produces them. -/
theorem load_success_semantics (f : String → Option ContentItem)
    (playlist : PlaylistItem) (layout : LayoutItem) (s : EngineState)
    (hnodup : (layout.regions.map Region.id).Nodup) :
    (PlaybackEngine.load (fun cid => Except.ok (f cid)) playlist layout s).1.status
        = PlaybackStatus.idle ∧
    (PlaybackEngine.load (fun cid => Except.ok (f cid)) playlist layout s).2.2
        = none ∧
    (PlaybackEngine.load (fun cid => Except.ok (f cid)) playlist layout s).1.regions
        = layout.regions.filterMap (resolveRegion f playlist) := by
  have haux := loadRegionsAux_total f playlist layout.regions []
    (by intro rs hrs; cases hrs) hnodup
  unfold PlaybackEngine.load PlaybackEngine.setStatus
  rw [haux]
  by_cases h : s.status = PlaybackStatus.loading <;> simp [h]

/-- Witness for C6 at a concrete input: the missing id is skipped, `r2` and
`r3` are omitted, the status ends `idle`. -/
theorem load_success_semantics_witness :
    (PlaybackEngine.load (fun cid => Except.ok (loaderFnA cid))
        skewedPlaylist threeRegionLayout PlaybackEngine.createInitialState).1.status
        = PlaybackStatus.idle ∧
    (PlaybackEngine.load (fun cid => Except.ok (loaderFnA cid))
        skewedPlaylist threeRegionLayout PlaybackEngine.createInitialState).2.2
        = none ∧
    (PlaybackEngine.load (fun cid => Except.ok (loaderFnA cid))
        skewedPlaylist threeRegionLayout PlaybackEngine.createInitialState).1.regions
        = threeRegionLayout.regions.filterMap (resolveRegion loaderFnA skewedPlaylist) :=
  load_success_semantics loaderFnA skewedPlaylist threeRegionLayout
    PlaybackEngine.createInitialState (by decide)

/-- C3 amended: when the loader throws, `load` sets status `error`, records
and rethrows the message — but it emits only `statusChange` events (never an
`error`-type engine event), and the regions map keeps exactly the region
states fully built before the exception (the `catch` block does not clear
`state.regions`). -/
theorem load_error_semantics (loader : String → Except String (Option ContentItem))
    (playlist : PlaylistItem) (layout : LayoutItem) (s : EngineState) (e : String)
    (h : (loadRegionsAux loader playlist layout.regions []).2 = some e) :
    (PlaybackEngine.load loader playlist layout s).1.status = PlaybackStatus.error ∧
    (PlaybackEngine.load loader playlist layout s).1.error = some e ∧
    (PlaybackEngine.load loader playlist layout s).2.2 = some e ∧
    (PlaybackEngine.load loader playlist layout s).1.regions
        = (loadRegionsAux loader playlist layout.regions []).1 ∧
    ∀ ev ∈ (PlaybackEngine.load loader playlist layout s).2.1,
      ∀ msg, ev ≠ EngineEvent.errorEvent msg := by
  unfold PlaybackEngine.load
  rcases haux : loadRegionsAux loader playlist layout.regions [] with ⟨built, err⟩
  rw [haux] at h
  simp only at h
  subst h
  refine ⟨?_, ?_, ?_, ?_, ?_⟩
  · simp [PlaybackEngine.setStatus]
    by_cases h1 : s.status = PlaybackStatus.loading <;> simp [h1]
  · simp
  · simp
  · simp [PlaybackEngine.setStatus]
    by_cases h1 : s.status = PlaybackStatus.loading <;> simp [h1]
  · intro ev hev msg
    simp only [List.mem_append] at hev
    rcases hev with h1 | h2
    · have := setStatus_events s PlaybackStatus.loading ev h1
      simp [this]
    · have := setStatus_events _ PlaybackStatus.error ev h2
      simp [this]

/-- C3 counterexample: the loader throws while resolving the second region,
yet the first region's fully built playback state stays in the engine's
regions map (one retained entry, not zero), and no `error`-type event is
emitted — only `statusChange` events. -/
theorem load_error_counterexample :
    (PlaybackEngine.load throwingLoader throwingPlaylist twoRegionLayout
        PlaybackEngine.createInitialState).1.status = PlaybackStatus.error ∧
    (PlaybackEngine.load throwingLoader throwingPlaylist twoRegionLayout
        PlaybackEngine.createInitialState).1.regions.length = 1 ∧
    ((PlaybackEngine.load throwingLoader throwingPlaylist twoRegionLayout
        PlaybackEngine.createInitialState).2.1.all
      (fun ev => match ev with
        | EngineEvent.errorEvent _ => false
        | _ => true)) = true := by
  refine ⟨rfl, rfl, rfl⟩

/-- Witness for C3's amended theorem at the same concrete input. -/
theorem load_error_semantics_witness :
    (PlaybackEngine.load throwingLoader throwingPlaylist twoRegionLayout
        PlaybackEngine.createInitialState).1.status = PlaybackStatus.error ∧
    (PlaybackEngine.load throwingLoader throwingPlaylist twoRegionLayout
        PlaybackEngine.createInitialState).1.error = some "content fetch failed" ∧
    (PlaybackEngine.load throwingLoader throwingPlaylist twoRegionLayout
        PlaybackEngine.createInitialState).2.2 = some "content fetch failed" ∧
    (PlaybackEngine.load throwingLoader throwingPlaylist twoRegionLayout
        PlaybackEngine.createInitialState).1.regions
        = (loadRegionsAux throwingLoader throwingPlaylist
            twoRegionLayout.regions []).1 ∧
    ∀ ev ∈ (PlaybackEngine.load throwingLoader throwingPlaylist twoRegionLayout
        PlaybackEngine.createInitialState).2.1,
      ∀ msg, ev ≠ EngineEvent.errorEvent msg :=
  load_error_semantics throwingLoader throwingPlaylist twoRegionLayout
    PlaybackEngine.createInitialState "content fetch failed" rfl

/-- C1: a completion signal for a region with no current content, or one
whose `currentIndex` has already moved past the signalling item, changes no
engine state and emits no event: the event-path hook is an idempotent no-op
on stale signals and never double-advances a region. -/
theorem notify_content_complete_stale_noop (cfg : EngineConfig) (s : EngineState)
    (regionId : String) (signalIndex : ℕ) (currentTime : ℚ)
    (h : ∀ rs ∈ s.regions, rs.regionId = regionId →
      rs.currentContent = none ∨ signalIndex ≠ rs.currentIndex) :
    PlaybackEngine.notifyContentComplete cfg s regionId signalIndex currentTime
      = (s, []) := by
  unfold PlaybackEngine.notifyContentComplete
  cases hfind : s.regions.find? (fun rs => rs.regionId == regionId) with
  | none => rfl
  | some regionState =>
    have hmem := List.mem_of_find?_eq_some hfind
    have hid : regionState.regionId = regionId := by
      have := List.find?_some hfind
      simpa using this
    rcases h regionState hmem hid with h1 | h2
    · simp [h1]
    · cases hcc : regionState.currentContent with
      | none => simp [hcc]
      | some pc => simp [hcc, h2]

/-- Witness for C1: a stale completion signal (about index 0, region already
at index 1) leaves the engine state untouched and emits nothing. -/
theorem notify_content_complete_stale_noop_witness :
    PlaybackEngine.notifyContentComplete DEFAULT_ENGINE_CONFIG staleEngineState
        "r1" 0 12 = (staleEngineState, []) :=
  notify_content_complete_stale_noop DEFAULT_ENGINE_CONFIG staleEngineState
    "r1" 0 12 (by decide)

theorem setStatus_animationFrameId (s : EngineState) (st : PlaybackStatus) :
    (PlaybackEngine.setStatus s st).1.animationFrameId = s.animationFrameId := by
  unfold PlaybackEngine.setStatus
  by_cases h : s.status = st <;> simp [h]

theorem tick_no_frame (cfg : EngineConfig) (s : EngineState)
    (tc : TimingController) (a b : ℚ) (h : s.animationFrameId = none) :
    PlaybackEngine.tick cfg s tc a b = (s, tc, []) := by
  unfold PlaybackEngine.tick
  rw [h]

/-- C9: `stop()` and `dispose()` cancel the outstanding per-frame callback
(`animationFrameId` becomes `null`), after which a firing opportunity of the
tick loop is a complete no-op at every hardware time: the stored
`currentTime`, every region's playback state, the clock and the event stream
all stay exactly as `stop()`/`dispose()` left them — only `play()` re-arms
the loop. -/
theorem stop_dispose_cancel_tick (cfg : EngineConfig) (s : EngineState)
    (tc : TimingController) (tStop a b : ℚ) :
    (PlaybackEngine.stop s tc tStop).1.animationFrameId = none ∧
    PlaybackEngine.tick cfg (PlaybackEngine.stop s tc tStop).1
        (PlaybackEngine.stop s tc tStop).2.1 a b
      = ((PlaybackEngine.stop s tc tStop).1,
         (PlaybackEngine.stop s tc tStop).2.1, []) ∧
    (PlaybackEngine.dispose s tc).1.animationFrameId = none ∧
    PlaybackEngine.tick cfg (PlaybackEngine.dispose s tc).1
        (PlaybackEngine.dispose s tc).2 a b
      = ((PlaybackEngine.dispose s tc).1, (PlaybackEngine.dispose s tc).2, []) := by
  have h1 : (PlaybackEngine.stop s tc tStop).1.animationFrameId = none := by
    simp only [PlaybackEngine.stop, setStatus_animationFrameId]
  exact ⟨h1, tick_no_frame cfg _ _ a b h1, rfl, tick_no_frame cfg _ _ a b rfl⟩

theorem advanceToNextContent_preserves (cfg : EngineConfig)
    (rs : RegionPlaybackState) (t : ℚ) :
    (PlaybackEngine.advanceToNextContent cfg rs t).1.contents = rs.contents ∧
    (PlaybackEngine.advanceToNextContent cfg rs t).1.regionId = rs.regionId ∧
    (PlaybackEngine.advanceToNextContent cfg rs t).1.assignment = rs.assignment := by
  unfold PlaybackEngine.advanceToNextContent
  cases hx : rs.contents[rs.currentIndex + 1]? <;> simp [hx]

theorem advance_no_cycleComplete (cfg : EngineConfig) (rs : RegionPlaybackState)
    (t : ℚ) (k : ℕ) :
    EngineEvent.cycleComplete k ∉ (PlaybackEngine.advanceToNextContent cfg rs t).2 := by
  unfold PlaybackEngine.advanceToNextContent
  cases hx : rs.contents[rs.currentIndex + 1]? <;> simp [hx]

theorem updateRegionStep_no_cycleComplete (cfg : EngineConfig) (t : ℚ)
    (rs : RegionPlaybackState) (k : ℕ) :
    EngineEvent.cycleComplete k ∉ (PlaybackEngine.updateRegionStep cfg t rs).2.1 := by
  unfold PlaybackEngine.updateRegionStep
  cases hcc : rs.currentContent with
  | none => simp
  | some pc =>
    by_cases h : pc.endTime ≤ t
    · simpa [h] using advance_no_cycleComplete cfg rs t k
    · simp [h]

theorem reseed_no_cycleComplete (rs : RegionPlaybackState) (k : ℕ) :
    EngineEvent.cycleComplete k ∉ reseedEvents rs := by
  unfold reseedEvents
  cases rs.contents <;> simp

theorem updateRegionStep_flag (cfg : EngineConfig) (t : ℚ)
    (rs : RegionPlaybackState)
    (hnull : rs.currentContent = none → rs.contents.length - 1 ≤ rs.currentIndex) :
    ((PlaybackEngine.updateRegionStep cfg t rs).2.2 = true
      ↔ regionExhausted t (PlaybackEngine.updateRegionStep cfg t rs).1) := by
  unfold PlaybackEngine.updateRegionStep regionExhausted
  cases hcc : rs.currentContent with
  | none =>
    simpa [hcc] using hnull hcc
  | some pc =>
    cases hcc2 : (if pc.endTime ≤ t then
        PlaybackEngine.advanceToNextContent cfg rs t else (rs, [])).1.currentContent with
    | none => simp [hcc2, decide_eq_true_iff]
    | some pc2 => simp [hcc2, decide_eq_true_iff, not_lt, and_comm]

theorem updateRegions_foldl (cfg : EngineConfig) (t : ℚ) :
    ∀ (regions : List RegionPlaybackState) (a1 : List RegionPlaybackState)
      (a2 : List EngineEvent) (b : Bool),
      List.foldl (fun acc regionState =>
          (acc.1 ++ [(PlaybackEngine.updateRegionStep cfg t regionState).1],
           acc.2.1 ++ (PlaybackEngine.updateRegionStep cfg t regionState).2.1,
           acc.2.2 && (PlaybackEngine.updateRegionStep cfg t regionState).2.2))
        (a1, a2, b) regions
      = (a1 ++ PlaybackEngine.advancePhase cfg t regions,
         a2 ++ regions.flatMap (fun rs => (PlaybackEngine.updateRegionStep cfg t rs).2.1),
         b && regions.all (fun rs => (PlaybackEngine.updateRegionStep cfg t rs).2.2))
  | [], a1, a2, b => by simp [PlaybackEngine.advancePhase]
  | rs :: rest, a1, a2, b => by
    simp only [List.foldl_cons]
    rw [updateRegions_foldl cfg t rest]
    simp [PlaybackEngine.advancePhase, Bool.and_assoc]

theorem startNewCycle_foldl (cfg : EngineConfig) (ct : ℚ) :
    ∀ (regions : List RegionPlaybackState) (a1 : List RegionPlaybackState)
      (a2 : List EngineEvent),
      List.foldl (fun acc regionState =>
          match regionState.contents with
          | [] => (acc.1 ++ [regionState], acc.2)
          | content :: _ =>
            let duration := PlaybackEngine.getContentDuration cfg content regionState
            (acc.1 ++ [{ regionState with
                currentIndex := 0,
                currentContent := some { content := content, startTime := ct,
                                         duration := duration,
                                         endTime := ct + duration } }],
             acc.2 ++ [EngineEvent.contentChange regionState.regionId content 0]))
        (a1, a2) regions
      = (a1 ++ regions.map (reseedAt cfg ct), a2 ++ regions.flatMap reseedEvents)
  | [], a1, a2 => by simp
  | rs :: rest, a1, a2 => by
    simp only [List.foldl_cons]
    cases hc : rs.contents with
    | nil =>
      rw [startNewCycle_foldl cfg ct rest]
      simp [reseedAt, reseedEvents, hc]
    | cons content cs =>
      rw [startNewCycle_foldl cfg ct rest]
      simp [reseedAt, reseedEvents, hc]

/-- The source's `startNewCycle` in closed form: counter incremented, every region reseeded
at the fresh clock reading, per-region `contentChange`s then `cycleComplete`
with the new counter. -/
theorem startNewCycle_spec (cfg : EngineConfig) (s : EngineState)
    (tc : TimingController) (now : ℚ) :
    PlaybackEngine.startNewCycle cfg s tc now
      = ({ s with
            cycleCount := s.cycleCount + 1,
            regions := s.regions.map (reseedAt cfg (tc.getCurrentTime now)) },
         s.regions.flatMap reseedEvents
           ++ [EngineEvent.cycleComplete (s.cycleCount + 1)]) := by
  simp only [PlaybackEngine.startNewCycle]
  rw [startNewCycle_foldl cfg (tc.getCurrentTime now) s.regions [] []]
  simp

theorem setStatus_fst_status (s : EngineState) (st : PlaybackStatus) :
    (PlaybackEngine.setStatus s st).1.status = st := by
  unfold PlaybackEngine.setStatus
  by_cases h : s.status = st <;> simp [h]

theorem setStatus_fst_currentTime (s : EngineState) (st : PlaybackStatus) :
    (PlaybackEngine.setStatus s st).1.currentTime = s.currentTime := by
  unfold PlaybackEngine.setStatus
  by_cases h : s.status = st <;> simp [h]

theorem stop_fst_status (s : EngineState) (tc : TimingController) (now : ℚ) :
    (PlaybackEngine.stop s tc now).1.status = PlaybackStatus.idle := by
  simp only [PlaybackEngine.stop]
  rw [setStatus_fst_status]

theorem stop_fst_currentTime (s : EngineState) (tc : TimingController) (now : ℚ) :
    (PlaybackEngine.stop s tc now).1.currentTime = 0 := by
  simp only [PlaybackEngine.stop]
  rw [setStatus_fst_currentTime]

theorem stop_no_cycleComplete (s : EngineState) (tc : TimingController)
    (now : ℚ) (k : ℕ) :
    EngineEvent.cycleComplete k ∉ (PlaybackEngine.stop s tc now).2.2 := by
  intro hk
  simp only [PlaybackEngine.stop] at hk
  have h2 := setStatus_events _ PlaybackStatus.idle _ hk
  simp at h2

theorem reseedAt_contents (cfg : EngineConfig) (t : ℚ) (rs : RegionPlaybackState) :
    (reseedAt cfg t rs).contents = rs.contents := by
  unfold reseedAt
  cases h : rs.contents <;> simp [h]

/-- C5: while the loop runs, (a) a `cycleComplete` event fires only with the
counter incremented by exactly one, only with looping enabled, and only when
every region — after this tick's advance phase — has exhausted its list
(`currentIndex` at or past the last item and not mid-playback); (b) at that
barrier every non-empty region is reseeded to index 0 with `startTime` equal
to the fresh clock reading (not 0); (c) with looping disabled `stop()` runs
instead: status `idle`, time zeroed, and no `cycleComplete` at all.  The
hypothesis `hnull` is the invariant that a dark region (`currentContent =
null`) is already past its last item, which holds in every playing state the
engine reaches. -/
theorem cycle_barrier_semantics (cfg : EngineConfig) (s : EngineState)
    (tc : TimingController) (t now2 : ℚ)
    (hnull : ∀ rs ∈ s.regions, rs.currentContent = none →
      rs.contents.length - 1 ≤ rs.currentIndex) :
    (∀ k, EngineEvent.cycleComplete k
        ∈ (PlaybackEngine.updateRegions cfg s tc t now2).2.2 →
      k = s.cycleCount + 1 ∧ cfg.loop = true ∧
      ∀ rs ∈ PlaybackEngine.advancePhase cfg t s.regions, regionExhausted t rs) ∧
    (cfg.loop = true →
      (∀ rs ∈ PlaybackEngine.advancePhase cfg t s.regions, regionExhausted t rs) →
      EngineEvent.cycleComplete (s.cycleCount + 1)
          ∈ (PlaybackEngine.updateRegions cfg s tc t now2).2.2 ∧
      (PlaybackEngine.updateRegions cfg s tc t now2).1.cycleCount
          = s.cycleCount + 1 ∧
      ∀ rs ∈ (PlaybackEngine.updateRegions cfg s tc t now2).1.regions,
        rs.contents ≠ [] → rs.currentIndex = 0 ∧
          ∃ pc, rs.currentContent = some pc ∧
            pc.startTime = tc.getCurrentTime now2) ∧
    (cfg.loop = false →
      (∀ rs ∈ PlaybackEngine.advancePhase cfg t s.regions, regionExhausted t rs) →
      (PlaybackEngine.updateRegions cfg s tc t now2).1.status
          = PlaybackStatus.idle ∧
      (PlaybackEngine.updateRegions cfg s tc t now2).1.currentTime = 0 ∧
      ∀ k, EngineEvent.cycleComplete k
        ∉ (PlaybackEngine.updateRegions cfg s tc t now2).2.2) := by
  have hiff : (s.regions.all fun rs => (PlaybackEngine.updateRegionStep cfg t rs).2.2)
        = true
      ↔ ∀ rs ∈ PlaybackEngine.advancePhase cfg t s.regions, regionExhausted t rs := by
    rw [List.all_eq_true]
    constructor
    · intro hall rs hrs
      rcases List.mem_map.mp hrs with ⟨rs0, hrs0, rfl⟩
      exact (updateRegionStep_flag cfg t rs0 (hnull rs0 hrs0)).mp (hall rs0 hrs0)
    · intro hall rs hrs
      exact (updateRegionStep_flag cfg t rs (hnull rs hrs)).mpr
        (hall _ (List.mem_map_of_mem _ hrs))
  simp only [PlaybackEngine.updateRegions]
  rw [updateRegions_foldl cfg t s.regions [] [] true]
  simp only [List.nil_append, Bool.true_and]
  refine ⟨?_, ?_, ?_⟩
  · intro k hk
    by_cases hall : (s.regions.all fun rs =>
        (PlaybackEngine.updateRegionStep cfg t rs).2.2) = true
    · by_cases hloop : cfg.loop = true
      · rw [if_pos hall, if_pos hloop] at hk
        rw [startNewCycle_spec] at hk
        refine ⟨?_, hloop, hiff.mp hall⟩
        dsimp only at hk
        rcases List.mem_append.mp hk with h1 | h2
        · exfalso
          rcases List.mem_flatMap.mp h1 with ⟨rs0, _, hsk⟩
          exact updateRegionStep_no_cycleComplete cfg t rs0 k hsk
        · rcases List.mem_append.mp h2 with h3 | h4
          · exfalso
            rcases List.mem_flatMap.mp h3 with ⟨rs0, _, hsk⟩
            exact reseed_no_cycleComplete rs0 k hsk
          · simpa using h4
      · rw [if_pos hall, if_neg hloop] at hk
        exfalso
        dsimp only at hk
        rcases List.mem_append.mp hk with h1 | h2
        · rcases List.mem_flatMap.mp h1 with ⟨rs0, _, hsk⟩
          exact updateRegionStep_no_cycleComplete cfg t rs0 k hsk
        · exact stop_no_cycleComplete _ tc now2 k h2
    · rw [if_neg hall] at hk
      exfalso
      dsimp only at hk
      rcases List.mem_flatMap.mp hk with ⟨rs0, _, hsk⟩
      exact updateRegionStep_no_cycleComplete cfg t rs0 k hsk
  · intro hloop hexh
    have hall := hiff.mpr hexh
    rw [if_pos hall, if_pos hloop, startNewCycle_spec]
    refine ⟨by simp, by simp, ?_⟩
    intro rs hrs hne
    dsimp only at hrs
    rcases List.mem_map.mp hrs with ⟨rs0, hrs0, rfl⟩
    cases hc : rs0.contents with
    | nil =>
      rw [reseedAt_contents] at hne
      exact absurd hc hne
    | cons content cs =>
      refine ⟨by simp [reseedAt, hc], ?_⟩
      exact ⟨{ content := content, startTime := tc.getCurrentTime now2,
               duration := PlaybackEngine.getContentDuration cfg content rs0,
               endTime := tc.getCurrentTime now2
                 + PlaybackEngine.getContentDuration cfg content rs0 },
             by simp [reseedAt, hc], rfl⟩
  · intro hloop hexh
    have hall := hiff.mpr hexh
    have hloopne : ¬ cfg.loop = true := by simp [hloop]
    rw [if_pos hall, if_neg hloopne]
    refine ⟨?_, ?_, ?_⟩
    · exact stop_fst_status _ tc now2
    · exact stop_fst_currentTime _ tc now2
    intro k hk
    dsimp only at hk
    rcases List.mem_append.mp hk with h1 | h2
    · rcases List.mem_flatMap.mp h1 with ⟨rs0, _, hsk⟩
      exact updateRegionStep_no_cycleComplete cfg t rs0 k hsk
    · exact stop_no_cycleComplete _ tc now2 k h2

/-- Witness for C5: at tick time 5 the single region exhausts (end 3), the
barrier fires `cycleComplete 1` and the counter becomes 1. -/
theorem cycle_barrier_semantics_witness :
    EngineEvent.cycleComplete 1
        ∈ (PlaybackEngine.updateRegions DEFAULT_ENGINE_CONFIG barrierEngineState
            TimingController.initialized 5 5).2.2 ∧
    (PlaybackEngine.updateRegions DEFAULT_ENGINE_CONFIG barrierEngineState
        TimingController.initialized 5 5).1.cycleCount = 1 := by
  have h := (cycle_barrier_semantics DEFAULT_ENGINE_CONFIG barrierEngineState
    TimingController.initialized 5 5 (by decide)).2.1 rfl (by decide)
  exact ⟨h.1, h.2.1⟩

theorem setStatus_fst_regions (s : EngineState) (st : PlaybackStatus) :
    (PlaybackEngine.setStatus s st).1.regions = s.regions := by
  unfold PlaybackEngine.setStatus
  by_cases h : s.status = st <;> simp [h]

theorem mapSet_mem (acc : List RegionPlaybackState) (x rs : RegionPlaybackState)
    (h : rs ∈ mapSet acc x) : rs ∈ acc ∨ rs = x := by
  unfold mapSet at h
  by_cases hany : acc.any (fun r => r.regionId == x.regionId)
  · rw [if_pos hany] at h
    rcases List.mem_map.mp h with ⟨r0, hr0, heq⟩
    by_cases hr : r0.regionId == x.regionId
    · right; rw [if_pos hr] at heq; exact heq.symm
    · left; rw [if_neg hr] at heq; exact heq ▸ hr0
  · rw [if_neg hany] at h
    rcases List.mem_append.mp h with h1 | h2
    · exact Or.inl h1
    · exact Or.inr (List.mem_singleton.mp h2)

theorem loadRegionsAux_currentContent
    (loader : String → Except String (Option ContentItem))
    (playlist : PlaylistItem) :
    ∀ (regs : List Region) (acc : List RegionPlaybackState),
      (∀ rs ∈ acc, rs.currentContent = none) →
      ∀ rs ∈ (loadRegionsAux loader playlist regs acc).1, rs.currentContent = none
  | [], acc, hacc => hacc
  | region :: rest, acc, hacc => by
    unfold loadRegionsAux
    cases hfind : playlist.contentAssignments.find? (fun a => a.regionId == region.id) with
    | none => exact loadRegionsAux_currentContent loader playlist rest acc hacc
    | some assignment =>
      by_cases hempty : assignment.contentIds.isEmpty
      · simp only [hempty, if_true]
        exact loadRegionsAux_currentContent loader playlist rest acc hacc
      · simp only [hempty]
        cases hlc : loadContents loader assignment.contentIds with
        | error e => simpa using hacc
        | ok contents =>
          by_cases hcs : contents.isEmpty
          · simp only [hcs, if_true]
            exact loadRegionsAux_currentContent loader playlist rest acc hacc
          · simp only [hcs]
            refine loadRegionsAux_currentContent loader playlist rest _ ?_
            intro rs hrs
            rcases mapSet_mem acc _ rs hrs with h1 | h2
            · exact hacc rs h1
            · rw [h2]; rfl

theorem load_wellFormed (loader : String → Except String (Option ContentItem))
    (playlist : PlaylistItem) (layout : LayoutItem) (s : EngineState) :
    engineWellFormed (PlaybackEngine.load loader playlist layout s).1 := by
  have hnone := loadRegionsAux_currentContent loader playlist layout.regions []
    (by intro rs hrs; cases hrs)
  intro rs hrs
  unfold PlaybackEngine.load at hrs
  rcases haux : loadRegionsAux loader playlist layout.regions [] with ⟨built, err⟩
  rw [haux] at hrs hnone
  cases err with
  | none =>
    rw [setStatus_fst_regions] at hrs
    intro pc hpc
    rw [hnone rs hrs] at hpc
    cases hpc
  | some e =>
    simp only [setStatus_fst_regions] at hrs
    intro pc hpc
    rw [hnone rs hrs] at hpc
    cases hpc

theorem advance_wellFormed (cfg : EngineConfig) (rs : RegionPlaybackState)
    (t : ℚ) : regionWellFormed (PlaybackEngine.advanceToNextContent cfg rs t).1 := by
  intro pc hpc
  cases hx : rs.contents[rs.currentIndex + 1]? with
  | none =>
    simp only [PlaybackEngine.advanceToNextContent, hx, Option.mem_def] at hpc
    cases hpc
  | some content =>
    simp only [PlaybackEngine.advanceToNextContent, hx, Option.mem_def,
      Option.some.injEq] at hpc
    subst hpc
    rfl

theorem reseedAt_wellFormed (cfg : EngineConfig) (t : ℚ)
    (rs : RegionPlaybackState) (h : regionWellFormed rs) :
    regionWellFormed (reseedAt cfg t rs) := by
  unfold reseedAt
  cases hc : rs.contents with
  | nil => exact h
  | cons content cs =>
    intro pc hpc
    simp only [Option.mem_def, Option.some.injEq] at hpc
    rw [← hpc]

theorem updateRegionStep_wellFormed (cfg : EngineConfig) (t : ℚ)
    (rs : RegionPlaybackState) (h : regionWellFormed rs) :
    regionWellFormed (PlaybackEngine.updateRegionStep cfg t rs).1 := by
  unfold PlaybackEngine.updateRegionStep
  cases hcc : rs.currentContent with
  | none => exact h
  | some pc =>
    by_cases hend : pc.endTime ≤ t
    · simpa [hend] using advance_wellFormed cfg rs t
    · simpa [hend] using h

/-- The source's `initializeRegionContents` is `startNewCycle`'s reseeding at engine time
`0`, without the counter increment and without `cycleComplete`. -/
theorem initializeRegionContents_spec (cfg : EngineConfig) (s : EngineState) :
    PlaybackEngine.initializeRegionContents cfg s
      = ({ s with regions := s.regions.map (reseedAt cfg 0) },
         s.regions.flatMap reseedEvents) := by
  simp only [PlaybackEngine.initializeRegionContents]
  rw [startNewCycle_foldl cfg 0 s.regions [] []]
  simp

theorem stop_wellFormed (s : EngineState) (tc : TimingController) (now : ℚ) :
    engineWellFormed (PlaybackEngine.stop s tc now).1 := by
  intro rs hrs
  simp only [PlaybackEngine.stop, setStatus_fst_regions] at hrs
  rcases List.mem_map.mp hrs with ⟨rs0, _, rfl⟩
  intro pc hpc
  simp at hpc

theorem updateRegions_wellFormed (cfg : EngineConfig) (s : EngineState)
    (tc : TimingController) (t now2 : ℚ) (h : engineWellFormed s) :
    engineWellFormed (PlaybackEngine.updateRegions cfg s tc t now2).1 := by
  simp only [PlaybackEngine.updateRegions]
  rw [updateRegions_foldl cfg t s.regions [] [] true]
  simp only [List.nil_append, Bool.true_and]
  by_cases hall : (s.regions.all fun rs =>
      (PlaybackEngine.updateRegionStep cfg t rs).2.2) = true
  · by_cases hloop : cfg.loop = true
    · rw [if_pos hall, if_pos hloop, startNewCycle_spec]
      intro rs hrs
      simp only [PlaybackEngine.advancePhase] at hrs
      rcases List.mem_map.mp hrs with ⟨rs0, hrs0, rfl⟩
      rcases List.mem_map.mp hrs0 with ⟨rs1, hrs1, rfl⟩
      exact reseedAt_wellFormed _ _ _
        (updateRegionStep_wellFormed cfg t rs1 (h rs1 hrs1))
    · rw [if_pos hall, if_neg hloop]
      exact fun rs hrs => stop_wellFormed _ tc now2 rs hrs
  · rw [if_neg hall]
    intro rs hrs
    simp only [PlaybackEngine.advancePhase] at hrs
    rcases List.mem_map.mp hrs with ⟨rs1, hrs1, rfl⟩
    exact updateRegionStep_wellFormed cfg t rs1 (h rs1 hrs1)

theorem tick_wellFormed (cfg : EngineConfig) (s : EngineState)
    (tc : TimingController) (now now2 : ℚ) (h : engineWellFormed s) :
    engineWellFormed (PlaybackEngine.tick cfg s tc now now2).1 := by
  simp only [PlaybackEngine.tick]
  cases haf : s.animationFrameId with
  | none => exact h
  | some u =>
    dsimp only
    by_cases hst : s.status = PlaybackStatus.playing
    · rw [if_neg (not_not_intro hst)]
      intro rs hrs
      exact updateRegions_wellFormed cfg
        { s with currentTime := tc.getCurrentTime now, animationFrameId := none }
        tc (tc.getCurrentTime now) now2 (fun r hr => h r hr) rs hrs
    · rw [if_pos hst]
      exact fun rs hrs => h rs hrs

theorem play_wellFormed (cfg : EngineConfig) (s : EngineState)
    (tc : TimingController) (now : ℚ) (h : engineWellFormed s) :
    engineWellFormed (PlaybackEngine.play cfg s tc now).1 := by
  simp only [PlaybackEngine.play]
  by_cases h1 : s.status = PlaybackStatus.playing
  · rw [if_pos h1]; exact h
  · rw [if_neg h1]
    by_cases h2 : (s.playlist.isNone || s.layout.isNone) = true
    · rw [if_pos h2]; exact h
    · rw [if_neg h2]
      have hr1 : engineWellFormed
          (if s.status = PlaybackStatus.idle ∨ s.status = PlaybackStatus.error
           then PlaybackEngine.initializeRegionContents cfg s else (s, [])).1 := by
        by_cases h3 : s.status = PlaybackStatus.idle
            ∨ s.status = PlaybackStatus.error
        · rw [if_pos h3, initializeRegionContents_spec]
          intro rs hrs
          simp only at hrs
          rcases List.mem_map.mp hrs with ⟨rs0, hrs0, rfl⟩
          exact reseedAt_wellFormed cfg 0 rs0 (h rs0 hrs0)
        · rw [if_neg h3]; exact h
      cases hstart : tc.start now with
      | error e => exact hr1
      | ok tc2 =>
        refine fun rs hrs => hr1 rs ?_
        simpa [setStatus_fst_regions] using hrs

theorem pause_wellFormed (s : EngineState) (tc : TimingController) (now : ℚ)
    (h : engineWellFormed s) :
    engineWellFormed (PlaybackEngine.pause s tc now).1 := by
  simp only [PlaybackEngine.pause]
  by_cases h1 : s.status ≠ PlaybackStatus.playing
  · rw [if_pos h1]; exact h
  · rw [if_neg h1]
    refine fun rs hrs => h rs ?_
    simpa [setStatus_fst_regions] using hrs

theorem notify_wellFormed (cfg : EngineConfig) (s : EngineState)
    (regionId : String) (signalIndex : ℕ) (ct : ℚ) (h : engineWellFormed s) :
    engineWellFormed
      (PlaybackEngine.notifyContentComplete cfg s regionId signalIndex ct).1 := by
  simp only [PlaybackEngine.notifyContentComplete]
  cases hfind : s.regions.find? (fun rs => rs.regionId == regionId) with
  | none => exact h
  | some rs0 =>
    simp only [hfind]
    cases hcc : rs0.currentContent with
    | none => exact h
    | some pc =>
      by_cases hsi : signalIndex ≠ rs0.currentIndex
      · rw [if_pos hsi]; exact h
      · rw [if_neg hsi]
        intro rs hrs
        simp only at hrs
        rcases mapSet_mem s.regions _ rs hrs with h1 | h2
        · exact h rs h1
        · exact h2 ▸ advance_wellFormed cfg rs0 ct

/-- C8: at every engine state a playback session can reach — from
construction through any sequence of `load`, `play`, `pause`, `stop`, ticks,
completion signals and `dispose` — every region's current record satisfies
`endTime = startTime + duration`; the at-most-one-current-item half of the
invariant is carried by the type itself (`currentContent` is one `Option`
field).  The invariant is established by the initial seeding and preserved by
every advance and by cycle reseeding. -/
theorem region_invariant_wellFormed (cfg : EngineConfig) (s : EngineState)
    (tc : TimingController) (h : EngineReachable cfg s tc) :
    engineWellFormed s := by
  induction h with
  | initial tc =>
    intro rs hrs
    simp [PlaybackEngine.createInitialState] at hrs
  | loadStep loader playlist layout hr ih =>
    exact load_wellFormed loader playlist layout _
  | playStep now hr ih => exact play_wellFormed cfg _ _ now ih
  | pauseStep now hr ih => exact pause_wellFormed _ _ now ih
  | stopStep now hr ih => exact stop_wellFormed _ _ now
  | tickStep now now2 hr ih => exact tick_wellFormed cfg _ _ now now2 ih
  | notifyStep regionId signalIndex ct hr ih =>
    exact notify_wellFormed cfg _ regionId signalIndex ct ih
  | disposeStep hr ih =>
    intro rs hrs
    simp [PlaybackEngine.dispose, PlaybackEngine.createInitialState] at hrs

/-- Witness for C8 at a concrete reachable state: construct, load the
three-region playlist, then `play()` at hardware time 0. -/
theorem region_invariant_wellFormed_witness :
    engineWellFormed (PlaybackEngine.play DEFAULT_ENGINE_CONFIG
        (PlaybackEngine.load (fun cid => Except.ok (loaderFnA cid))
          skewedPlaylist threeRegionLayout PlaybackEngine.createInitialState).1
        TimingController.initialized 0).1 :=
  region_invariant_wellFormed DEFAULT_ENGINE_CONFIG _ _
    (EngineReachable.playStep 0
      (EngineReachable.loadStep _ skewedPlaylist threeRegionLayout
        (EngineReachable.initial TimingController.initialized)))

/-- C7 counterexample: after `maxRetries` consecutive fatal network errors
the controller is waiting — but the very next poll tick resets the fast-retry
counter to zero, so a network error during that reconnection attempt
fast-retries (`hls.startLoad()`) again during the same outage, refuting
"never fast-retries again for that outage". -/
theorem hls_fast_retry_counterexample :
    (hlsRun HlsState.initial [HlsEvent.networkError, HlsEvent.networkError,
        HlsEvent.networkError, HlsEvent.networkError]).1.isWaitingForStream
      = true ∧
    HlsAction.fastRetry ∈
      (hlsRun (hlsRun HlsState.initial [HlsEvent.networkError,
          HlsEvent.networkError, HlsEvent.networkError,
          HlsEvent.networkError]).1
        [HlsEvent.pollTick, HlsEvent.networkError]).2 := by
  refine ⟨rfl, ?_⟩
  decide

/-- C7 amended: (a) once `retryCount` has reached `maxRetries`, a further
fatal network error performs no fast retry: the instance is destroyed and
the controller enters the waiting state; (b) while waiting, reconnection is
attempted only by the polling tick (fixed `retryInterval` of 5000 ms), and
each poll resets the fast-retry counter to zero — so up to `maxRetries` fast
retries may recur per reconnection attempt within the same outage; (c) while
waiting the configured fallback image is rendered; (d) no step ever reports
completion to the region sequencer; (e) a parsed manifest returns the
controller to the live state silently (no engine-visible action beyond
playing the video). -/
theorem hls_no_notifyComplete (s : HlsState) (ev : HlsEvent) :
    HlsAction.notifyComplete ∉ (hlsStep s ev).2 := by
  cases ev <;> simp only [hlsStep] <;> split <;> (try split) <;> simp

theorem hls_resilience_amended (s : HlsState) (ev : HlsEvent) (p : String)
    (halive : s.hlsAlive = true) (hmax : maxRetries ≤ s.retryCount)
    (hwait : s.isWaitingForStream = true) :
    (hlsStep s HlsEvent.networkError
      = ({ s with isLoading := false, hlsAlive := false,
                  isWaitingForStream := true },
         [HlsAction.destroyInstance])) ∧
    ((hlsStep s HlsEvent.pollTick).1.retryCount = 0 ∧
     (hlsStep s HlsEvent.pollTick).1.connectionAttempt
        = s.connectionAttempt + 1 ∧
     (hlsStep s HlsEvent.pollTick).2 = [HlsAction.reconnect] ∧
     retryInterval = 5000) ∧
    (hlsRender s (some p) = HlsRenderOutput.fallbackImage p) ∧
    (HlsAction.notifyComplete ∉ (hlsStep s ev).2) ∧
    ((hlsStep s HlsEvent.manifestParsed).1.isWaitingForStream = false ∧
     (hlsStep s HlsEvent.manifestParsed).1.error = none ∧
     (hlsStep s HlsEvent.manifestParsed).2 = [HlsAction.playVideo]) := by
  have hnotlt : ¬ s.retryCount < maxRetries := not_lt.mpr hmax
  refine ⟨?_, ?_, ?_, ?_, ?_⟩
  · simp [hlsStep, halive, hnotlt]
  · simp [hlsStep, hwait, retryInterval]
  · simp [hlsRender, hwait]
  · exact hls_no_notifyComplete s ev
  · simp [hlsStep, halive]

/-- Witness for C7's amended theorem at a concrete controller state. -/
theorem hls_resilience_amended_witness :
    (hlsStep hlsWaitingRetryState HlsEvent.networkError
      = ({ hlsWaitingRetryState with isLoading := false, hlsAlive := false,
                                     isWaitingForStream := true },
         [HlsAction.destroyInstance])) ∧
    ((hlsStep hlsWaitingRetryState HlsEvent.pollTick).1.retryCount = 0 ∧
     (hlsStep hlsWaitingRetryState HlsEvent.pollTick).1.connectionAttempt
        = hlsWaitingRetryState.connectionAttempt + 1 ∧
     (hlsStep hlsWaitingRetryState HlsEvent.pollTick).2
        = [HlsAction.reconnect] ∧
     retryInterval = 5000) ∧
    (hlsRender hlsWaitingRetryState (some "fallback.png")
      = HlsRenderOutput.fallbackImage "fallback.png") ∧
    (HlsAction.notifyComplete
      ∉ (hlsStep hlsWaitingRetryState HlsEvent.bufferEos).2) ∧
    ((hlsStep hlsWaitingRetryState
        HlsEvent.manifestParsed).1.isWaitingForStream = false ∧
     (hlsStep hlsWaitingRetryState HlsEvent.manifestParsed).1.error = none ∧
     (hlsStep hlsWaitingRetryState HlsEvent.manifestParsed).2
        = [HlsAction.playVideo]) :=
  hls_resilience_amended hlsWaitingRetryState HlsEvent.bufferEos "fallback.png"
    rfl (by decide) rfl

theorem statusEvents_append :
    ∀ l1 l2 : List EngineEvent,
      statusEvents (l1 ++ l2) = statusEvents l1 ++ statusEvents l2
  | [], _ => rfl
  | ev :: rest, l2 => by
    cases ev <;> simp [statusEvents, statusEvents_append rest l2]

theorem statusEvents_setStatus (s : EngineState) (st : PlaybackStatus) :
    statusEvents (PlaybackEngine.setStatus s st).2
      = if s.status = st then [] else [st] := by
  unfold PlaybackEngine.setStatus
  by_cases h : s.status = st <;> simp [h, statusEvents]

theorem chainFrom_nil (prev : Option PlaybackStatus) : chainFrom prev [] := by
  cases prev <;> simp [chainFrom]

theorem chainFrom_single (prev : Option PlaybackStatus) (v : PlaybackStatus)
    (h : ∀ x, prev = some x → x ≠ v) : chainFrom prev [v] := by
  cases prev with
  | none => simp [chainFrom]
  | some x => simpa [chainFrom] using h x rfl

theorem chainFrom_pair (prev : Option PlaybackStatus) (v w : PlaybackStatus)
    (h1 : ∀ x, prev = some x → x ≠ v) (h2 : v ≠ w) :
    chainFrom prev [v, w] := by
  cases prev with
  | none => simpa [chainFrom] using h2
  | some x => simpa [chainFrom, h2] using h1 x rfl

theorem lastStatus_nil (prev : Option PlaybackStatus) :
    lastStatus prev [] = prev := by
  cases prev <;> simp [lastStatus]

theorem lastStatus_single (prev : Option PlaybackStatus) (v : PlaybackStatus) :
    lastStatus prev [v] = some v := by
  cases prev <;> simp [lastStatus]

theorem lastStatus_pair (prev : Option PlaybackStatus) (v w : PlaybackStatus) :
    lastStatus prev [v, w] = some w := by
  cases prev <;> simp [lastStatus]

theorem chainFrom_append (prev : Option PlaybackStatus)
    (l1 l2 : List PlaybackStatus) (h1 : chainFrom prev l1)
    (h2 : chainFrom (lastStatus prev l1) l2) :
    chainFrom prev (l1 ++ l2) := by
  unfold chainFrom at *
  rw [← List.append_assoc]
  refine List.chain'_append.mpr ⟨h1, h2.right_of_append, ?_⟩
  intro x hx y hy
  have hlast : lastStatus prev l1 = some x := hx
  rw [hlast] at h2
  rcases List.chain'_append.mp h2 with ⟨_, _, hj⟩
  exact hj x (by simp) y hy

theorem lastStatus_append (prev : Option PlaybackStatus)
    (l1 l2 : List PlaybackStatus) :
    lastStatus prev (l1 ++ l2) = lastStatus (lastStatus prev l1) l2 := by
  unfold lastStatus
  cases l2 with
  | nil =>
    cases h : (prev.toList ++ l1).getLast? <;> simp [h]
  | cons y ys =>
    rw [← List.append_assoc, List.getLast?_append_cons,
      List.getLast?_append_cons]

theorem setStatus_fst_playlist (s : EngineState) (st : PlaybackStatus) :
    (PlaybackEngine.setStatus s st).1.playlist = s.playlist := by
  unfold PlaybackEngine.setStatus
  by_cases h : s.status = st <;> simp [h]

theorem statusEvents_flatMap_nil {α : Type} (f : α → List EngineEvent)
    (h : ∀ a, statusEvents (f a) = []) :
    ∀ l : List α, statusEvents (l.flatMap f) = []
  | [] => rfl
  | a :: rest => by
    rw [List.flatMap_cons, statusEvents_append, h a,
      statusEvents_flatMap_nil f h rest]
    rfl

theorem statusEvents_reseedEvents (rs : RegionPlaybackState) :
    statusEvents (reseedEvents rs) = [] := by
  unfold reseedEvents
  cases rs.contents <;> simp [statusEvents]

theorem statusEvents_advance (cfg : EngineConfig) (rs : RegionPlaybackState)
    (t : ℚ) :
    statusEvents (PlaybackEngine.advanceToNextContent cfg rs t).2 = [] := by
  unfold PlaybackEngine.advanceToNextContent
  cases hx : rs.contents[rs.currentIndex + 1]? <;> simp [hx, statusEvents]

theorem statusEvents_updateRegionStep (cfg : EngineConfig) (t : ℚ)
    (rs : RegionPlaybackState) :
    statusEvents (PlaybackEngine.updateRegionStep cfg t rs).2.1 = [] := by
  unfold PlaybackEngine.updateRegionStep
  cases hcc : rs.currentContent with
  | none => rfl
  | some pc =>
    by_cases h : pc.endTime ≤ t
    · simpa [h] using statusEvents_advance cfg rs t
    · simp [h, statusEvents]

/-- The source's `load` from a non-`loading` state: it emits exactly `loading` followed by
the final status (`idle` on success, `error` on a loader throw), ends in that
final status, and installs the playlist. -/
theorem load_status_effects
    (loader : String → Except String (Option ContentItem))
    (playlist : PlaylistItem) (layout : LayoutItem) (s : EngineState)
    (h : s.status ≠ PlaybackStatus.loading) :
    ∃ fin, (fin = PlaybackStatus.idle ∨ fin = PlaybackStatus.error) ∧
      statusEvents (PlaybackEngine.load loader playlist layout s).2.1
        = [PlaybackStatus.loading, fin] ∧
      (PlaybackEngine.load loader playlist layout s).1.status = fin ∧
      (PlaybackEngine.load loader playlist layout s).1.playlist
        = some playlist := by
  unfold PlaybackEngine.load
  rcases haux : loadRegionsAux loader playlist layout.regions [] with ⟨built, err⟩
  cases err with
  | none =>
    refine ⟨PlaybackStatus.idle, Or.inl rfl, ?_, ?_, ?_⟩
    · rw [statusEvents_append, statusEvents_setStatus, statusEvents_setStatus]
      simp [h, setStatus_fst_status]
    · exact setStatus_fst_status _ _
    · rw [setStatus_fst_playlist]
  | some e =>
    refine ⟨PlaybackStatus.error, Or.inr rfl, ?_, ?_, ?_⟩
    · rw [statusEvents_append, statusEvents_setStatus, statusEvents_setStatus]
      simp [h, setStatus_fst_status]
    · simp [setStatus_fst_status]
    · simp [setStatus_fst_playlist]

/-- The source's `play`: either a silent no-op on the state (already playing, missing
playlist, or a clock that throws), or it emits exactly `playing` from a
non-playing state with a playlist installed. -/
theorem play_status_effects (cfg : EngineConfig) (s : EngineState)
    (tc : TimingController) (now : ℚ) :
    (statusEvents (PlaybackEngine.play cfg s tc now).2.2.1 = [] ∧
     (PlaybackEngine.play cfg s tc now).1.status = s.status ∧
     (PlaybackEngine.play cfg s tc now).1.playlist = s.playlist) ∨
    (s.playlist ≠ none ∧ s.status ≠ PlaybackStatus.playing ∧
     statusEvents (PlaybackEngine.play cfg s tc now).2.2.1
        = [PlaybackStatus.playing] ∧
     (PlaybackEngine.play cfg s tc now).1.status = PlaybackStatus.playing ∧
     (PlaybackEngine.play cfg s tc now).1.playlist = s.playlist) := by
  simp only [PlaybackEngine.play]
  by_cases h1 : s.status = PlaybackStatus.playing
  · rw [if_pos h1]
    exact Or.inl ⟨rfl, rfl, rfl⟩
  · rw [if_neg h1]
    by_cases h2 : (s.playlist.isNone || s.layout.isNone) = true
    · rw [if_pos h2]
      exact Or.inl ⟨rfl, rfl, rfl⟩
    · rw [if_neg h2]
      have hpl : s.playlist ≠ none := by
        intro hcon
        simp [hcon] at h2
      have hr1status : (if s.status = PlaybackStatus.idle
            ∨ s.status = PlaybackStatus.error
          then PlaybackEngine.initializeRegionContents cfg s
          else (s, [])).1.status = s.status := by
        by_cases h3 : s.status = PlaybackStatus.idle
            ∨ s.status = PlaybackStatus.error
        · rw [if_pos h3, initializeRegionContents_spec]
        · rw [if_neg h3]
      have hr1playlist : (if s.status = PlaybackStatus.idle
            ∨ s.status = PlaybackStatus.error
          then PlaybackEngine.initializeRegionContents cfg s
          else (s, [])).1.playlist = s.playlist := by
        by_cases h3 : s.status = PlaybackStatus.idle
            ∨ s.status = PlaybackStatus.error
        · rw [if_pos h3, initializeRegionContents_spec]
        · rw [if_neg h3]
      have hr1evs : statusEvents (if s.status = PlaybackStatus.idle
            ∨ s.status = PlaybackStatus.error
          then PlaybackEngine.initializeRegionContents cfg s
          else (s, [])).2 = [] := by
        by_cases h3 : s.status = PlaybackStatus.idle
            ∨ s.status = PlaybackStatus.error
        · rw [if_pos h3, initializeRegionContents_spec]
          exact statusEvents_flatMap_nil reseedEvents statusEvents_reseedEvents
            s.regions
        · rw [if_neg h3]
          rfl
      cases hstart : tc.start now with
      | error e => exact Or.inl ⟨hr1evs, hr1status, hr1playlist⟩
      | ok tc2 =>
        refine Or.inr ⟨hpl, h1, ?_, ?_, ?_⟩
        · show statusEvents ((if s.status = PlaybackStatus.idle
              ∨ s.status = PlaybackStatus.error
            then PlaybackEngine.initializeRegionContents cfg s
            else (s, [])).2
              ++ (PlaybackEngine.setStatus _ PlaybackStatus.playing).2)
            = [PlaybackStatus.playing]
          rw [statusEvents_append, hr1evs, statusEvents_setStatus]
          simp [hr1status, h1]
        · show (PlaybackEngine.setStatus _ PlaybackStatus.playing).1.status
            = PlaybackStatus.playing
          exact setStatus_fst_status _ _
        · show (PlaybackEngine.setStatus _ PlaybackStatus.playing).1.playlist
            = s.playlist
          rw [setStatus_fst_playlist, hr1playlist]

/-- The source's `pause`: a no-op unless playing; from `playing` it emits exactly
`paused`. -/
theorem pause_status_effects (s : EngineState) (tc : TimingController)
    (now : ℚ) :
    (statusEvents (PlaybackEngine.pause s tc now).2.2 = [] ∧
     (PlaybackEngine.pause s tc now).1.status = s.status ∧
     (PlaybackEngine.pause s tc now).1.playlist = s.playlist) ∨
    (s.status = PlaybackStatus.playing ∧
     statusEvents (PlaybackEngine.pause s tc now).2.2
        = [PlaybackStatus.paused] ∧
     (PlaybackEngine.pause s tc now).1.status = PlaybackStatus.paused ∧
     (PlaybackEngine.pause s tc now).1.playlist = s.playlist) := by
  simp only [PlaybackEngine.pause]
  by_cases h1 : s.status ≠ PlaybackStatus.playing
  · rw [if_pos h1]
    exact Or.inl ⟨rfl, rfl, rfl⟩
  · rw [if_neg h1]
    push_neg at h1
    refine Or.inr ⟨h1, ?_, ?_, ?_⟩
    · show statusEvents (PlaybackEngine.setStatus s PlaybackStatus.paused).2
        = [PlaybackStatus.paused]
      rw [statusEvents_setStatus]
      simp [h1]
    · show (PlaybackEngine.setStatus s PlaybackStatus.paused).1.status
        = PlaybackStatus.paused
      exact setStatus_fst_status _ _
    · show (PlaybackEngine.setStatus s PlaybackStatus.paused).1.playlist
        = s.playlist
      exact setStatus_fst_playlist _ _

/-- The source's `stop`: ends in `idle`, keeps the playlist, and emits `idle` exactly when
the status was not already `idle`. -/
theorem stop_status_effects (s : EngineState) (tc : TimingController)
    (now : ℚ) :
    ((s.status = PlaybackStatus.idle ∧
        statusEvents (PlaybackEngine.stop s tc now).2.2 = []) ∨
     (s.status ≠ PlaybackStatus.idle ∧
        statusEvents (PlaybackEngine.stop s tc now).2.2
          = [PlaybackStatus.idle])) ∧
    (PlaybackEngine.stop s tc now).1.status = PlaybackStatus.idle ∧
    (PlaybackEngine.stop s tc now).1.playlist = s.playlist := by
  refine ⟨?_, stop_fst_status s tc now, ?_⟩
  · by_cases h : s.status = PlaybackStatus.idle
    · left
      refine ⟨h, ?_⟩
      show statusEvents (PlaybackEngine.setStatus _ PlaybackStatus.idle).2 = []
      rw [statusEvents_setStatus]
      simp [h]
    · right
      refine ⟨h, ?_⟩
      show statusEvents (PlaybackEngine.setStatus _ PlaybackStatus.idle).2
        = [PlaybackStatus.idle]
      rw [statusEvents_setStatus]
      simp [h]
  · show (PlaybackEngine.setStatus _ PlaybackStatus.idle).1.playlist = s.playlist
    rw [setStatus_fst_playlist]

/-- The source's `updateRegions`: either silent on the status (no barrier, or a new cycle
started, or `stop()` from an already-`idle` status), or the `stop()` at the
barrier emits exactly `idle`. -/
theorem updateRegions_status_effects (cfg : EngineConfig) (s : EngineState)
    (tc : TimingController) (t now2 : ℚ) :
    (statusEvents (PlaybackEngine.updateRegions cfg s tc t now2).2.2 = [] ∧
     (PlaybackEngine.updateRegions cfg s tc t now2).1.status = s.status ∧
     (PlaybackEngine.updateRegions cfg s tc t now2).1.playlist = s.playlist) ∨
    (s.status ≠ PlaybackStatus.idle ∧
     statusEvents (PlaybackEngine.updateRegions cfg s tc t now2).2.2
        = [PlaybackStatus.idle] ∧
     (PlaybackEngine.updateRegions cfg s tc t now2).1.status
        = PlaybackStatus.idle ∧
     (PlaybackEngine.updateRegions cfg s tc t now2).1.playlist
        = s.playlist) := by
  simp only [PlaybackEngine.updateRegions]
  rw [updateRegions_foldl cfg t s.regions [] [] true]
  simp only [List.nil_append, Bool.true_and]
  by_cases hall : (s.regions.all fun rs =>
      (PlaybackEngine.updateRegionStep cfg t rs).2.2) = true
  · by_cases hloop : cfg.loop = true
    · rw [if_pos hall, if_pos hloop, startNewCycle_spec]
      left
      refine ⟨?_, rfl, rfl⟩
      rw [statusEvents_append,
        statusEvents_flatMap_nil _ (statusEvents_updateRegionStep cfg t)
          s.regions,
        statusEvents_append,
        statusEvents_flatMap_nil reseedEvents statusEvents_reseedEvents]
      rfl
    · rw [if_pos hall, if_neg hloop]
      by_cases hidle : s.status = PlaybackStatus.idle
      · left
        refine ⟨?_, ?_, ?_⟩
        · show statusEvents ((s.regions.flatMap fun rs =>
              (PlaybackEngine.updateRegionStep cfg t rs).2.1)
              ++ (PlaybackEngine.setStatus _ PlaybackStatus.idle).2) = []
          rw [statusEvents_append,
            statusEvents_flatMap_nil _ (statusEvents_updateRegionStep cfg t)
              s.regions, statusEvents_setStatus]
          simp [hidle]
        · rw [stop_fst_status]
          exact hidle.symm
        · show (PlaybackEngine.setStatus _ PlaybackStatus.idle).1.playlist
            = s.playlist
          rw [setStatus_fst_playlist]
      · right
        refine ⟨hidle, ?_, ?_, ?_⟩
        · show statusEvents ((s.regions.flatMap fun rs =>
              (PlaybackEngine.updateRegionStep cfg t rs).2.1)
              ++ (PlaybackEngine.setStatus _ PlaybackStatus.idle).2)
            = [PlaybackStatus.idle]
          rw [statusEvents_append,
            statusEvents_flatMap_nil _ (statusEvents_updateRegionStep cfg t)
              s.regions, statusEvents_setStatus]
          simp [hidle]
        · exact stop_fst_status _ tc now2
        · show (PlaybackEngine.setStatus _ PlaybackStatus.idle).1.playlist
            = s.playlist
          rw [setStatus_fst_playlist]
  · rw [if_neg hall]
    left
    exact ⟨statusEvents_flatMap_nil _ (statusEvents_updateRegionStep cfg t)
      s.regions, rfl, rfl⟩

/-- The source's `tick`: silent on status unless the barrier with looping disabled runs
`stop()` from the `playing` state, which emits exactly `idle`. -/
theorem tick_status_effects (cfg : EngineConfig) (s : EngineState)
    (tc : TimingController) (now now2 : ℚ) :
    (statusEvents (PlaybackEngine.tick cfg s tc now now2).2.2 = [] ∧
     (PlaybackEngine.tick cfg s tc now now2).1.status = s.status ∧
     (PlaybackEngine.tick cfg s tc now now2).1.playlist = s.playlist) ∨
    (s.status = PlaybackStatus.playing ∧
     statusEvents (PlaybackEngine.tick cfg s tc now now2).2.2
        = [PlaybackStatus.idle] ∧
     (PlaybackEngine.tick cfg s tc now now2).1.status = PlaybackStatus.idle ∧
     (PlaybackEngine.tick cfg s tc now now2).1.playlist = s.playlist) := by
  simp only [PlaybackEngine.tick]
  cases haf : s.animationFrameId with
  | none => exact Or.inl ⟨rfl, rfl, rfl⟩
  | some u =>
    dsimp only
    by_cases hst : s.status = PlaybackStatus.playing
    · rw [if_neg (not_not_intro hst)]
      rcases updateRegions_status_effects cfg
          { s with currentTime := tc.getCurrentTime now,
                   animationFrameId := none }
          tc (tc.getCurrentTime now) now2 with
        ⟨he, hs2, hp⟩ | ⟨hne, he, hs2, hp⟩
      · exact Or.inl ⟨he, hs2, hp⟩
      · exact Or.inr ⟨hst, he, hs2, hp⟩
    · rw [if_pos hst]
      exact Or.inl ⟨rfl, rfl, rfl⟩

/-- The source's `notifyContentComplete` never emits `statusChange` and never changes the
status or the playlist. -/
theorem notify_status_effects (cfg : EngineConfig) (s : EngineState)
    (regionId : String) (signalIndex : ℕ) (ct : ℚ) :
    statusEvents (PlaybackEngine.notifyContentComplete cfg s regionId
        signalIndex ct).2 = [] ∧
    (PlaybackEngine.notifyContentComplete cfg s regionId signalIndex
        ct).1.status = s.status ∧
    (PlaybackEngine.notifyContentComplete cfg s regionId signalIndex
        ct).1.playlist = s.playlist := by
  simp only [PlaybackEngine.notifyContentComplete]
  cases hfind : s.regions.find? (fun rs => rs.regionId == regionId) with
  | none => exact ⟨rfl, rfl, rfl⟩
  | some rs0 =>
    simp only [hfind]
    cases hcc : rs0.currentContent with
    | none => exact ⟨rfl, rfl, rfl⟩
    | some pc =>
      by_cases hsi : signalIndex ≠ rs0.currentIndex
      · rw [if_pos hsi]
        exact ⟨rfl, rfl, rfl⟩
      · rw [if_neg hsi]
        exact ⟨statusEvents_advance cfg rs0 ct, rfl, rfl⟩

theorem applyOp_statusInv (cfg : EngineConfig) (op : EngineOp)
    (s : EngineState) (tc : TimingController) (prev : Option PlaybackStatus)
    (hinv : statusInv prev s) :
    chainFrom prev (statusEvents (applyOp cfg op s tc).2.2) ∧
    statusInv (lastStatus prev (statusEvents (applyOp cfg op s tc).2.2))
      (applyOp cfg op s tc).1 := by
  obtain ⟨hnl, hnone, hsome⟩ := hinv
  have unchanged : ∀ (s2 : EngineState), s2.status = s.status →
      s2.playlist = s.playlist → statusInv prev s2 := by
    intro s2 h1 h2
    refine ⟨by rw [h1]; exact hnl, fun hp => ?_, fun v hv => ?_⟩
    · rcases hnone hp with ⟨ha, hb⟩
      exact ⟨h1.trans ha, h2.trans hb⟩
    · rcases hsome v hv with hva | ⟨ha, hb, hc⟩
      · exact Or.inl (hva.trans h1.symm)
      · exact Or.inr ⟨h1.trans ha, h2.trans hb, hc⟩
  cases op with
  | initClock =>
    simp only [applyOp, statusEvents]
    rw [lastStatus_nil]
    exact ⟨chainFrom_nil prev, unchanged s rfl rfl⟩
  | loadOp loader playlist layout =>
    rcases load_status_effects loader playlist layout s hnl with
      ⟨fin, hfin, hevs, hst, _⟩
    simp only [applyOp]
    rw [hevs]
    have hfirst : ∀ x, prev = some x → x ≠ PlaybackStatus.loading := by
      intro x hx
      rcases hsome x hx with h | ⟨_, _, hc⟩
      · rw [h]; exact hnl
      · exact hc
    have hfinne : PlaybackStatus.loading ≠ fin := by
      rcases hfin with rfl | rfl <;> decide
    refine ⟨chainFrom_pair prev _ fin hfirst hfinne, ?_⟩
    rw [lastStatus_pair]
    refine ⟨?_, ?_, ?_⟩
    · rw [hst]
      rcases hfin with rfl | rfl <;> decide
    · intro hcon
      exact Option.noConfusion hcon
    · intro v hv
      injection hv with hv2
      left
      exact hv2 ▸ hst.symm
  | playOp now =>
    rcases play_status_effects cfg s tc now with
      ⟨hevs, hst, hpl⟩ | ⟨hpl0, hst0, hevs, hst, _⟩
    · simp only [applyOp]
      rw [hevs, lastStatus_nil]
      exact ⟨chainFrom_nil prev, unchanged _ hst hpl⟩
    · simp only [applyOp]
      rw [hevs]
      have hfirst : ∀ x, prev = some x → x ≠ PlaybackStatus.playing := by
        intro x hx
        rcases hsome x hx with h | ⟨_, hb, _⟩
        · rw [h]; exact hst0
        · exact absurd hb hpl0
      refine ⟨chainFrom_single prev _ hfirst, ?_⟩
      rw [lastStatus_single]
      refine ⟨?_, ?_, ?_⟩
      · rw [hst]
        decide
      · intro hcon
        exact Option.noConfusion hcon
      · intro v hv
        injection hv with hv2
        left
        exact hv2 ▸ hst.symm
  | pauseOp now =>
    rcases pause_status_effects s tc now with
      ⟨hevs, hst, hpl⟩ | ⟨hst0, hevs, hst, _⟩
    · simp only [applyOp]
      rw [hevs, lastStatus_nil]
      exact ⟨chainFrom_nil prev, unchanged _ hst hpl⟩
    · simp only [applyOp]
      rw [hevs]
      have hfirst : ∀ x, prev = some x → x ≠ PlaybackStatus.paused := by
        intro x hx
        rcases hsome x hx with h | ⟨ha, _, _⟩
        · rw [h, hst0]; decide
        · rw [ha] at hst0; cases hst0
      refine ⟨chainFrom_single prev _ hfirst, ?_⟩
      rw [lastStatus_single]
      refine ⟨?_, ?_, ?_⟩
      · rw [hst]
        decide
      · intro hcon
        exact Option.noConfusion hcon
      · intro v hv
        injection hv with hv2
        left
        exact hv2 ▸ hst.symm
  | stopOp now =>
    obtain ⟨hcases, hst, hpl⟩ := stop_status_effects s tc now
    rcases hcases with ⟨hidle, hevs⟩ | ⟨hnidle, hevs⟩
    · simp only [applyOp]
      rw [hevs, lastStatus_nil]
      refine ⟨chainFrom_nil prev, by rw [hst]; decide, fun hp => ?_,
        fun v hv => ?_⟩
      · rcases hnone hp with ⟨_, hb⟩
        exact ⟨hst, hpl.trans hb⟩
      · rcases hsome v hv with h | ⟨_, hb, hc⟩
        · left; rw [h, hidle, hst]
        · right; exact ⟨hst, hpl.trans hb, hc⟩
    · simp only [applyOp]
      rw [hevs]
      have hfirst : ∀ x, prev = some x → x ≠ PlaybackStatus.idle := by
        intro x hx
        rcases hsome x hx with h | ⟨ha, _, _⟩
        · rw [h]; exact hnidle
        · exact absurd ha hnidle
      refine ⟨chainFrom_single prev _ hfirst, ?_⟩
      rw [lastStatus_single]
      refine ⟨?_, ?_, ?_⟩
      · rw [hst]
        decide
      · intro hcon
        exact Option.noConfusion hcon
      · intro v hv
        injection hv with hv2
        left
        exact hv2 ▸ hst.symm
  | tickOp now now2 =>
    rcases tick_status_effects cfg s tc now now2 with
      ⟨hevs, hst, hpl⟩ | ⟨hst0, hevs, hst, _⟩
    · simp only [applyOp]
      rw [hevs, lastStatus_nil]
      exact ⟨chainFrom_nil prev, unchanged _ hst hpl⟩
    · simp only [applyOp]
      rw [hevs]
      have hfirst : ∀ x, prev = some x → x ≠ PlaybackStatus.idle := by
        intro x hx
        rcases hsome x hx with h | ⟨ha, _, _⟩
        · rw [h, hst0]; decide
        · rw [ha] at hst0; cases hst0
      refine ⟨chainFrom_single prev _ hfirst, ?_⟩
      rw [lastStatus_single]
      refine ⟨?_, ?_, ?_⟩
      · rw [hst]
        decide
      · intro hcon
        exact Option.noConfusion hcon
      · intro v hv
        injection hv with hv2
        left
        exact hv2 ▸ hst.symm
  | notifyOp regionId signalIndex currentTime =>
    obtain ⟨hevs, hst, hpl⟩ :=
      notify_status_effects cfg s regionId signalIndex currentTime
    simp only [applyOp]
    rw [hevs, lastStatus_nil]
    exact ⟨chainFrom_nil prev, unchanged _ hst hpl⟩
  | disposeOp =>
    simp only [applyOp, statusEvents]
    rw [lastStatus_nil]
    refine ⟨chainFrom_nil prev, fun hcon => PlaybackStatus.noConfusion hcon,
      fun hp => ⟨rfl, rfl⟩, fun v hv => ?_⟩
    rcases hsome v hv with h | ⟨_, _, hc⟩
    · right
      exact ⟨rfl, rfl, fun hcon => hnl (h ▸ hcon)⟩
    · right
      exact ⟨rfl, rfl, hc⟩

theorem runOps_statusInv (cfg : EngineConfig) :
    ∀ (ops : List EngineOp) (s : EngineState) (tc : TimingController)
      (prev : Option PlaybackStatus), statusInv prev s →
      chainFrom prev (statusEvents (runOps cfg ops s tc).2.2) ∧
      statusInv (lastStatus prev (statusEvents (runOps cfg ops s tc).2.2))
        (runOps cfg ops s tc).1
  | [], s, tc, prev, hinv => by
    simp only [runOps, statusEvents]
    rw [lastStatus_nil]
    exact ⟨chainFrom_nil prev, hinv⟩
  | op :: rest, s, tc, prev, hinv => by
    have h1 := applyOp_statusInv cfg op s tc prev hinv
    have h2 := runOps_statusInv cfg rest (applyOp cfg op s tc).1
      (applyOp cfg op s tc).2.1 _ h1.2
    simp only [runOps]
    rw [statusEvents_append, lastStatus_append]
    exact ⟨chainFrom_append _ _ _ h1.1 h2.1, h2.2⟩

/-- C10: over any sequence of engine operations run from a freshly
constructed engine, the `statusChange` events form a list in which no two
consecutive events carry the same status: `setStatus` emits only on an
actual change, and no operation can silently desynchronise the status from
the last emitted value in a way that lets a repeat through. -/
theorem statusChange_never_repeats (cfg : EngineConfig) (ops : List EngineOp) :
    List.Chain' (fun a b => a ≠ b)
      (statusEvents (runOps cfg ops PlaybackEngine.createInitialState
        TimingController.constructed).2.2) := by
  have h := (runOps_statusInv cfg ops PlaybackEngine.createInitialState
    TimingController.constructed none
    ⟨by decide, fun _ => ⟨rfl, rfl⟩, fun v hv => by cases hv⟩).1
  simpa [chainFrom] using h
